import Mathlib

/-!
# Verification of the ImageStegano core engines

A shallow embedding of the repository's two core modules,
`src/utils/crypto_engine.py` (AES-256-GCM bundler) and
`src/utils/stego_engine.py` (LSB steganography engine), together with
proofs settling the specification claims about them.

Conventions of the embedding:
* Python `bytes` values and byte-strings are `List Nat` with entries `< 256`.
* Python `str` values that carry payload/transport data are byte lists
  (they are ASCII in every use the engines make of them); JSON string
  *fields* are lists of Unicode code points.
* The filesystem is an association list from paths to files; a path is a
  `(stem, suffix)` pair mirroring `pathlib.Path.with_suffix` behaviour.
* Fallible Python code (raising exceptions) is `Except`/`Option` valued.
* External library primitives that the repository calls but does not
  contain (PIL, `stegano.lsb`, `cryptography`'s AESGCM) are modelled from
  the specification's description of their contract; every such definition
  carries a doc comment starting `Modelled from the spec:`.
-/

deriving instance DecidableEq for Except

namespace ImageStegano

/-! ## Decimal byte strings (`str(n)` / digit parsing) -/

/-- The base-`base` digit values of `n`, most significant first
(fuel-bounded structural recursion so that the kernel can evaluate it;
`n` itself is always enough fuel). -/
def digitsRevAux (base : Nat) : Nat → Nat → List Nat
  | _, 0 => []
  | 0, _ + 1 => []
  | fuel + 1, n + 1 => digitsRevAux base fuel ((n + 1) / base) ++ [(n + 1) % base]

/-- The ASCII-decimal rendering of `n`, i.e. Python's `str(n)` as bytes
(`"0"` for zero, most significant digit first). -/
def decDigits (n : Nat) : List Nat :=
  if n = 0 then [48] else (digitsRevAux 10 n n).map (· + 48)

/-- Is a byte an ASCII digit `'0'..'9'`? -/
def isDigitB (c : Nat) : Bool := 48 ≤ c && c ≤ 57

/-- Split a byte list into its longest ASCII-digit prefix and the rest. -/
def takeDigits : List Nat → List Nat × List Nat
  | [] => ([], [])
  | c :: rest =>
    if isDigitB c then
      let p := takeDigits rest
      (c :: p.1, p.2)
    else ([], c :: rest)

/-- Numeric value of an ASCII-decimal byte string (most significant first). -/
def decValue (ds : List Nat) : Nat :=
  ds.foldl (fun a d => 10 * a + (d - 48)) 0

/-! ## Bits and bytes (the `stegano` bit stream: 8 bits per byte, MSB first) -/

/-- Numeric value of one bit. -/
def bitVal (b : Bool) : Nat := if b then 1 else 0

/-- The eight bits of a byte, most significant first (`format(b, '08b')`). -/
def byteBits (b : Nat) : List Bool :=
  [b.testBit 7, b.testBit 6, b.testBit 5, b.testBit 4,
   b.testBit 3, b.testBit 2, b.testBit 1, b.testBit 0]

/-- Flatten a byte string to its bit stream, MSB first within each byte. -/
def bytesToBits : List Nat → List Bool
  | [] => []
  | b :: r => byteBits b ++ bytesToBits r

/-- Regroup a bit stream into bytes (8 bits each, MSB first); a trailing
group of fewer than 8 bits is discarded. -/
def bitsToBytes : List Bool → List Nat
  | a :: b :: c :: d :: e :: f :: g :: h :: rest =>
    (128 * bitVal a + 64 * bitVal b + 32 * bitVal c + 16 * bitVal d +
      8 * bitVal e + 4 * bitVal f + 2 * bitVal g + bitVal h) :: bitsToBytes rest
  | _ => []

/-! ## Base64 (`base64.b64encode` / `base64.b64decode`) -/

/-- The standard base64 alphabet: index `0..63` to ASCII code. -/
def b64char (k : Nat) : Nat :=
  if k < 26 then 65 + k
  else if k < 52 then 97 + (k - 26)
  else if k < 62 then 48 + (k - 52)
  else if k = 62 then 43
  else 47

/-- Inverse of `b64char` on the base64 alphabet (`0` elsewhere). -/
def b64val (c : Nat) : Nat :=
  if 65 ≤ c ∧ c ≤ 90 then c - 65
  else if 97 ≤ c ∧ c ≤ 122 then 26 + (c - 97)
  else if 48 ≤ c ∧ c ≤ 57 then 52 + (c - 48)
  else if c = 43 then 62
  else if c = 47 then 63
  else 0

/-- `base64.b64encode` over byte lists: 3 input bytes per 4 output
characters, `'='`-padded tail. -/
def b64encode : List Nat → List Nat
  | [] => []
  | [a] => [b64char (a / 4), b64char (a % 4 * 16), 61, 61]
  | [a, b] => [b64char (a / 4), b64char (a % 4 * 16 + b / 16), b64char (b % 16 * 4), 61]
  | a :: b :: c :: rest =>
    b64char (a / 4) :: b64char (a % 4 * 16 + b / 16) ::
      b64char (b % 16 * 4 + c / 64) :: b64char (c % 64) :: b64encode rest

/-- `base64.b64decode` on well-formed base64 text (4-character groups,
`'='`-padded tail); other inputs decode to garbage or `[]`, mirroring the
fact that the engines only ever decode strings they encoded. -/
def b64decode : List Nat → List Nat
  | w :: x :: y :: z :: rest =>
    if z = 61 then
      if y = 61 then [b64val w * 4 + b64val x / 16]
      else [b64val w * 4 + b64val x / 16, b64val x % 16 * 16 + b64val y / 4]
    else
      (b64val w * 4 + b64val x / 16) :: (b64val x % 16 * 16 + b64val y / 4) ::
        (b64val y % 4 * 64 + b64val z) :: b64decode rest
  | _ => []

/-! ## JSON string escaping (`json.dumps` with `ensure_ascii`, `json.loads`)

The bundle transport format is `base64(json.dumps(bundle, separators=(',', ':')))`
over a flat object of five string fields.  `json.dumps` with its default
`ensure_ascii=True` emits pure ASCII: printable ASCII characters other than
`"` and `\` pass through, the short escapes `\" \\ \b \t \n \f \r` are used
where available, every other code point becomes `\uXXXX` (a surrogate pair
for astral code points).  Strings are lists of Unicode code points. -/

/-- Lowercase hex digit character for `k < 16`. -/
def hexDigitChar (k : Nat) : Nat := if k < 10 then 48 + k else 87 + k

/-- The four hex digit characters of `n < 0x10000`, most significant first. -/
def hex4 (n : Nat) : List Nat :=
  [hexDigitChar (n / 4096 % 16), hexDigitChar (n / 256 % 16),
   hexDigitChar (n / 16 % 16), hexDigitChar (n % 16)]

/-- Value of one hex digit character (upper or lower case). -/
def hexVal (c : Nat) : Option Nat :=
  if 48 ≤ c ∧ c ≤ 57 then some (c - 48)
  else if 97 ≤ c ∧ c ≤ 102 then some (c - 97 + 10)
  else if 65 ≤ c ∧ c ≤ 70 then some (c - 65 + 10)
  else none

/-- Value of a four-hex-digit group. -/
def hex4Val (a b c d : Nat) : Option Nat := do
  let x ← hexVal a
  let y ← hexVal b
  let z ← hexVal c
  let w ← hexVal d
  pure (4096 * x + 256 * y + 16 * z + w)

/-- `json.dumps` escaping of one code point (`ensure_ascii=True`). -/
def escapeChar (c : Nat) : List Nat :=
  if c = 34 then [92, 34]
  else if c = 92 then [92, 92]
  else if c = 8 then [92, 98]
  else if c = 9 then [92, 116]
  else if c = 10 then [92, 110]
  else if c = 12 then [92, 102]
  else if c = 13 then [92, 114]
  else if 32 ≤ c ∧ c ≤ 126 then [c]
  else if c < 65536 then 92 :: 117 :: hex4 c
  else
    92 :: 117 :: hex4 (55296 + (c - 65536) / 1024) ++
      (92 :: 117 :: hex4 (56320 + (c - 65536) % 1024))

/-- `json.dumps` escaping of a whole string (content only, no quotes). -/
def escapeStr (s : List Nat) : List Nat :=
  s.foldr (fun c acc => escapeChar c ++ acc) []

/-- Value of a two-character short escape (`\" \\ \/ \b \t \n \f \r`). -/
def escVal (e : Nat) : Option Nat :=
  if e = 34 then some 34
  else if e = 92 then some 92
  else if e = 47 then some 47
  else if e = 98 then some 8
  else if e = 116 then some 9
  else if e = 110 then some 10
  else if e = 102 then some 12
  else if e = 114 then some 13
  else none

/-- One `\uXXXX` escape group (with possible surrogate-pair continuation)
of the `json.loads` string scanner; `recur` continues scanning after the
group. -/
def parseUEsc (recur : List Nat → Option (List Nat × List Nat))
    (rest1 : List Nat) : Option (List Nat × List Nat) :=
  match rest1 with
  | a :: b :: c2 :: d :: rest2 =>
    match hex4Val a b c2 d with
    | none => none
    | some h =>
      if 55296 ≤ h ∧ h < 56320 then
        match rest2 with
        | 92 :: 117 :: a2 :: b2 :: c3 :: d2 :: rest3 =>
          match hex4Val a2 b2 c3 d2 with
          | none => none
          | some l =>
            if 56320 ≤ l ∧ l < 57344 then
              match recur rest3 with
              | none => none
              | some p => some ((65536 + (h - 55296) * 1024 + (l - 56320)) :: p.1, p.2)
            else none
        | _ => none
      else
        match recur rest2 with
        | none => none
        | some p => some (h :: p.1, p.2)
  | _ => none

/-- `json.loads` string scanning (fuel-bounded; every step consumes at
least one input character, so `input.length` fuel is always enough):
consume escaped content up to the closing quote, returning the decoded
code points and the remaining input.  Surrogate pairs written as two
`\uXXXX` escapes are recombined into one code point, exactly as CPython's
`json` does. -/
def parseJStrAux : Nat → List Nat → Option (List Nat × List Nat)
  | 0, _ => none
  | fuel + 1, l =>
    match l with
    | [] => none
    | c :: rest =>
      if c = 34 then some ([], rest)
      else if c = 92 then
        match rest with
        | [] => none
        | e :: rest1 =>
          if e = 117 then parseUEsc (parseJStrAux fuel) rest1
          else
            match escVal e with
            | none => none
            | some v =>
              match parseJStrAux fuel rest1 with
              | none => none
              | some p => some (v :: p.1, p.2)
      else
        match parseJStrAux fuel rest with
        | none => none
        | some p => some (c :: p.1, p.2)

/-- The `json.loads` string scanner at adequate fuel. -/
def parseJStr (l : List Nat) : Option (List Nat × List Nat) :=
  parseJStrAux l.length l

/-- Strip an expected literal from the front of the input. -/
def stripLit : List Nat → List Nat → Option (List Nat)
  | [], l => some l
  | p :: ps, c :: cs => if c = p then stripLit ps cs else none
  | _ :: _, [] => none

/-- ASCII bytes of a Lean string (used for fixed key literals). -/
def strBytes (s : String) : List Nat := s.toList.map Char.toNat

/-- A code point list that is a well-formed Unicode string: every code
point is a Unicode scalar value (below 0x110000 and not a surrogate).
Python `str` values can additionally hold lone surrogates, but no string
the engines produce or consume does. -/
def ValidStr (s : List Nat) : Prop :=
  ∀ c ∈ s, c < 1114112 ∧ ¬(55296 ≤ c ∧ c < 57344)

/-! ## Crypto engine (`src/utils/crypto_engine.py`)

`CryptoEngine` wraps AES-256-GCM.  The AESGCM primitive itself lives in the
external `cryptography` package; it is modelled here by an ideal AEAD: a
keystream mask for confidentiality and a perfectly binding authentication
tag.  Injectivity of the tag in `(key, nonce, aad, ciphertext)` stands in
for GCM's cryptographic unforgeability, which is exactly the contract the
specification's tamper-detection sentences rely on. -/

/-- A Python dict of string keys and byte-string values, in insertion
order, used for caller/generated metadata. -/
abbrev Meta : Type := List (String × List Nat)

/-- Python `dict.__setitem__`: replace the value of an existing key in
place, otherwise append the pair. -/
def metaUpsert (m : Meta) (k : String) (v : List Nat) : Meta :=
  if (m.lookup k).isSome then
    m.map (fun kv => if kv.1 = k then (k, v) else kv)
  else m ++ [(k, v)]

/-- Python `dict.update`: upsert each new pair in order. -/
def metaUpdate (m : Meta) (new : Meta) : Meta :=
  new.foldl (fun acc kv => metaUpsert acc kv.1 kv.2) m

/-- A length-prefixed field: `str(len(x)) ++ ":" ++ x`.  Used by the
modelled serializations; prefix-free, hence injective to concatenate. -/
def lenField (x : List Nat) : List Nat := decDigits x.length ++ 58 :: x

/-- Lexicographic order on byte strings (how `sort_keys` compares the
ASCII key strings). -/
def bytesLE : List Nat → List Nat → Bool
  | [], _ => true
  | _ :: _, [] => false
  | a :: as, b :: bs => if a < b then true else if a = b then bytesLE as bs else false

/-- Insert a pair into a key-sorted metadata list. -/
def insertSorted (p : String × List Nat) : Meta → Meta
  | [] => [p]
  | q :: rest =>
    if bytesLE (strBytes p.1) (strBytes q.1) then p :: q :: rest
    else q :: insertSorted p rest

/-- Sort a metadata list by key (insertion sort). -/
def sortByKey (m : Meta) : Meta := m.foldr insertSorted []

/-- Modelled from the spec: the canonical, stable-key-ordered serialization
of the metadata mapping (`json.dumps(meta, sort_keys=True).encode()` in the
source).  Keys are sorted, then each key and value is emitted as a
length-prefixed field; the exact wire syntax is irrelevant to every claim,
only that it is a deterministic byte encoding. -/
def metaSerialize (m : Meta) : List Nat :=
  (sortByKey m).foldr
    (fun kv acc => lenField (strBytes kv.1) ++ lenField kv.2 ++ acc) []

/-- Modelled from the spec: the AES-GCM keystream (a CSPRNG-like function
of key, nonce and position).  Only byte-range and involution of the XOR
mask matter to the claims. -/
def ksByte (key nonce : List Nat) (i : Nat) : Nat :=
  (key.foldl (· + ·) 0 + nonce.foldl (· + ·) 0 + i) % 256

/-- XOR a byte list against the keystream starting at position `i`. -/
def maskFrom (key nonce : List Nat) : Nat → List Nat → List Nat
  | _, [] => []
  | i, b :: r => (b ^^^ ksByte key nonce i) :: maskFrom key nonce (i + 1) r

/-- Modelled from the spec: the 16-byte GCM authentication tag, idealized
as a perfectly binding commitment to `(key, nonce, aad, ciphertext)`:
verification succeeds exactly when all four match. -/
def tagOf (key nonce aad ct : List Nat) : List Nat :=
  lenField key ++ lenField nonce ++ lenField aad ++ ct

/-- Modelled from the spec: `hashlib.sha256(key).hexdigest()[:16]`, the
16-hex-character key fingerprint.  SHA-256 itself is replaced by a
deterministic stand-in digest; every claim treats the fingerprint as an
opaque function of the key. -/
def fpDigest (key : List Nat) : Nat :=
  key.foldl (fun a b => (a * 257 + b + 1) % 18446744073709551616) 1

def fingerprint (key : List Nat) : List Nat :=
  ((digitsRevAux 16 (fpDigest key) (fpDigest key)).map hexDigitChar).take 16

/-- The five-string-field encryption bundle returned by
`CryptoEngine.encrypt` (all payload fields base64 text). -/
structure Bundle where
  version : List Nat
  metadata : List Nat
  nonce : List Nat
  ciphertext : List Nat
  tag : List Nat
deriving DecidableEq

/-- Typed failures of the crypto engine (`ValueError`s in the source). -/
inductive CryptoErr where
  | invalidKeySize
  | authenticationFailed
  | keyMismatch
  | malformedBundle
deriving DecidableEq

/-- `CryptoEngine.__init__`: reject any key that is not exactly 32 bytes
(`raise ValueError(f"Key must be {self.KEY_SIZE} bytes")`). -/
def CryptoEngine.init (key : List Nat) : Except CryptoErr (List Nat) :=
  if key.length = 32 then .ok key else .error .invalidKeySize

/-- `CryptoEngine.encrypt`.  The ambient effects of the source — the fresh
CSPRNG nonce and `datetime.utcnow()` — are passed in as the `nonce` and
`now` arguments.  Returns the bundle together with the caller's metadata
dict as it stands after the call: the source aliases it
(`meta = metadata or {}; meta.update(...)`), so a truthy caller dict is
updated in place. -/
def encBase (metadata : Option Meta) : Meta :=
  match metadata with
  | none => []
  | some m => if m = [] then [] else m

/-- The metadata dict after `meta.update({...})`: the caller's dict (when
truthy) extended in place with the generated fields. -/
def encMerged (key now plaintext : List Nat) (metadata : Option Meta) : Meta :=
  metaUpdate (encBase metadata)
    [("version", strBytes "v2.0"), ("timestamp", now),
     ("key_hash", fingerprint key), ("size", decDigits plaintext.length)]

/-- The AEAD associated data: the canonical serialization of the merged
metadata (`json.dumps(meta, sort_keys=True).encode()`). -/
def encAad (key now plaintext : List Nat) (metadata : Option Meta) : List Nat :=
  metaSerialize (encMerged key now plaintext metadata)

def CryptoEngine.encrypt (key nonce now : List Nat) (plaintext : List Nat)
    (metadata : Option Meta) : Bundle × Option Meta :=
  let aad := encAad key now plaintext metadata
  let ct := maskFrom key nonce 0 plaintext
  let tg := tagOf key nonce aad ct
  ({ version := strBytes "v2.0",
     metadata := b64encode aad,
     nonce := b64encode nonce,
     ciphertext := b64encode ct,
     tag := b64encode tg },
   match metadata with
   | none => none
   | some m => if m = [] then some []
     else some (encMerged key now plaintext metadata))

/-- Parse one length-prefixed field, returning it and the rest. -/
def parseLenField (l : List Nat) : Option (List Nat × List Nat) :=
  let p := takeDigits l
  if p.1 = [] then none
  else
    match p.2 with
    | 58 :: t =>
      if decValue p.1 ≤ t.length then some (t.take (decValue p.1), t.drop (decValue p.1))
      else none
    | _ => none

/-- Inverse of `metaSerialize` (fuel-bounded recursion on the input). -/
def metaParseAux : Nat → List Nat → Option Meta
  | 0, l => if l = [] then some [] else none
  | _ + 1, [] => some []
  | fuel + 1, l => do
    let (kb, r1) ← parseLenField l
    let (v, r2) ← parseLenField r1
    let rest ← metaParseAux fuel r2
    pure ((String.mk (kb.map Char.ofNat), v) :: rest)

/-- `json.loads` of the serialized metadata. -/
def metaParse (l : List Nat) : Option Meta := metaParseAux l.length l

/-- `CryptoEngine.decrypt`: base64-decode the bundle fields, verify the
tag (ideal AEAD), parse the metadata, check the key fingerprint.  A tag
failure surfaces as `ValueError("Authentication failed: ...")`
(`authenticationFailed`); a fingerprint mismatch as
`ValueError("Key mismatch detected")` (`keyMismatch`). -/
def CryptoEngine.decrypt (key : List Nat) (b : Bundle) :
    Except CryptoErr (List Nat × Meta) :=
  let nonce := b64decode b.nonce
  let ct := b64decode b.ciphertext
  let tg := b64decode b.tag
  let aad := b64decode b.metadata
  if tg = tagOf key nonce aad ct then
    match metaParse aad with
    | none => .error .malformedBundle
    | some md =>
      if md.lookup "key_hash" = some (fingerprint key) then
        .ok (maskFrom key nonce 0 ct, md)
      else .error .keyMismatch
  else .error .authenticationFailed

/-- The compact JSON document `json.dumps(bundle, separators=(',', ':'))`
for the five-field bundle, as ASCII bytes. -/
def bundleJson (b : Bundle) : List Nat :=
  123 :: (34 :: strBytes "version" ++ [34, 58, 34]) ++ escapeStr b.version ++
  (34 :: 44 :: 34 :: strBytes "metadata" ++ [34, 58, 34]) ++ escapeStr b.metadata ++
  (34 :: 44 :: 34 :: strBytes "nonce" ++ [34, 58, 34]) ++ escapeStr b.nonce ++
  (34 :: 44 :: 34 :: strBytes "ciphertext" ++ [34, 58, 34]) ++ escapeStr b.ciphertext ++
  (34 :: 44 :: 34 :: strBytes "tag" ++ [34, 58, 34]) ++ escapeStr b.tag ++
  [34, 125]

/-- `CryptoEngine.create_bundle_string`: base64 of the compact JSON. -/
def create_bundle_string (b : Bundle) : List Nat := b64encode (bundleJson b)

/-- `CryptoEngine.parse_bundle_string`: base64-decode, then `json.loads`
of the five-field object produced by `create_bundle_string`. -/
def parse_bundle_string (s : List Nat) : Option Bundle := do
  let l := b64decode s
  let r1 ← stripLit (123 :: (34 :: strBytes "version" ++ [34, 58, 34])) l
  let (v, r2) ← parseJStr r1
  let r3 ← stripLit (44 :: 34 :: strBytes "metadata" ++ [34, 58, 34]) r2
  let (md, r4) ← parseJStr r3
  let r5 ← stripLit (44 :: 34 :: strBytes "nonce" ++ [34, 58, 34]) r4
  let (n, r6) ← parseJStr r5
  let r7 ← stripLit (44 :: 34 :: strBytes "ciphertext" ++ [34, 58, 34]) r6
  let (ct, r8) ← parseJStr r7
  let r9 ← stripLit (44 :: 34 :: strBytes "tag" ++ [34, 58, 34]) r8
  let (tg, r10) ← parseJStr r9
  let r11 ← stripLit [125] r10
  if r11 = [] then
    pure { version := v, metadata := md, nonce := n, ciphertext := ct, tag := tg }
  else none

/-- `quick_encrypt`: construct the engine (key-size check), encrypt,
return the bundle transport string. -/
def quick_encrypt (key nonce now data : List Nat) (metadata : Option Meta) :
    Except CryptoErr (List Nat) := do
  let k ← CryptoEngine.init key
  pure (create_bundle_string (CryptoEngine.encrypt k nonce now data metadata).1)

/-- `quick_decrypt`: construct the engine (key-size check), parse the
transport string, decrypt. -/
def quick_decrypt (key bundleStr : List Nat) : Except CryptoErr (List Nat × Meta) := do
  let k ← CryptoEngine.init key
  match parse_bundle_string bundleStr with
  | none => .error .malformedBundle
  | some b => CryptoEngine.decrypt k b

/-! ## Stego engine (`src/utils/stego_engine.py`)

Images are rasters with individually addressable channel values; the
filesystem is an association list.  A path is a `(stem, suffix)` pair so
that `Path(p).with_suffix('.png')` is `(p.1, "png")` — in particular it is
the *same* path when the suffix already is `"png"`. -/

/-- A filesystem path, split as `pathlib` does into stem and suffix. -/
abbrev PathK : Type := String × String

/-- `Path(p).with_suffix('.png')`. -/
def withSuffixPng (p : PathK) : PathK := (p.1, "png")

/-- A decoded raster image: dimensions, PIL mode and format strings, the
flattened channel-value stream (row-major, channel-major within pixel),
and the non-pixel metadata bytes (EXIF/ICC chunks etc.) its file carries. -/
structure Image where
  width : Nat
  height : Nat
  mode : String
  format : String
  pixels : List Nat
  meta : List Nat
deriving DecidableEq

/-- A file: either a decodable image or raw non-image bytes. -/
inductive FileK where
  | image (img : Image)
  | raw (bytes : List Nat)
deriving DecidableEq

/-- The modelled filesystem. -/
abbrev FS : Type := List (PathK × FileK)

/-- Look a path up in the filesystem. -/
def lookupFS : FS → PathK → Option FileK
  | [], _ => none
  | (q, f) :: rest, p => if p = q then some f else lookupFS rest p

/-- `os.path.exists`. -/
def existsFS (fs : FS) (p : PathK) : Bool := (lookupFS fs p).isSome

/-- Write (create or overwrite) a file. -/
def writeFS (fs : FS) (p : PathK) (f : FileK) : FS := (p, f) :: fs

/-- `os.remove`. -/
def removeFS (fs : FS) (p : PathK) : FS := fs.filter (fun e => e.1 ≠ p)

/-- `PIL.Image.open` on a file already fetched from the filesystem:
raw bytes fail to decode (`UnidentifiedImageError`). -/
def openFile : FileK → Except String Image
  | .image img => .ok img
  | .raw _ => .error "cannot identify image file"

/-- Number of channels of the PIL modes the engine distinguishes after its
forced conversion (`'RGB'` → 3, anything else, i.e. `'RGBA'`, → 4). -/
def channelsOf (mode : String) : Nat := if mode = "RGB" then 3 else 4

/-- The image mode after the engine's `img.convert('RGB')` guard:
`RGB`/`RGBA` pass through, everything else becomes `RGB`. -/
def modeAfterConvert (mode : String) : String :=
  if mode = "RGB" ∨ mode = "RGBA" then mode else "RGB"

/-- Modelled from the spec: PIL's `img.convert('RGB')` produces an RGB
raster of the same dimensions whose channel values are derived from the
original pixels; no claim depends on the conversion formula, only on the
dimensions, the byte range, and the channel count. -/
def convertRGB (img : Image) : Image :=
  { img with
    mode := "RGB",
    pixels := (img.pixels ++ List.replicate (img.width * img.height * 3) 0).take
      (img.width * img.height * 3) }

/-- A well-formed PIL raster: the channel stream has exactly
`width*height*channels` entries for the RGB/RGBA modes, and every channel
value is a byte. -/
def Image.wf (img : Image) : Prop :=
  (img.mode = "RGB" → img.pixels.length = img.width * img.height * 3) ∧
  (img.mode = "RGBA" → img.pixels.length = img.width * img.height * 4) ∧
  ∀ v ∈ img.pixels, v < 256

/-! ### The `stegano.lsb` dependency -/

/-- Overwrite the least significant bit of a channel value. -/
def setLSB (v : Nat) (b : Bool) : Nat := 2 * (v / 2) + bitVal b

/-- Read the least significant bit of a channel value. -/
def getLSB (v : Nat) : Bool := v % 2 = 1

/-- Embed a bit stream into the LSBs of the leading channel values,
leaving the remaining values untouched. -/
def embedBits : List Bool → List Nat → List Nat
  | [], ps => ps
  | _ :: _, [] => []
  | b :: bs, p :: ps => setLSB p b :: embedBits bs ps

/-- Modelled from the spec: the self-delimiting payload encoding of the
`stegano.lsb` dependency — an ASCII-decimal length, a `':'` delimiter,
then the payload bytes (the spec's "length prefix or end marker ...
included in the overhead reserve"). -/
def lsbMessage (msg : List Nat) : List Nat := decDigits msg.length ++ 58 :: msg

/-- Modelled from the spec: `stegano.lsb.hide` — embed the bits of the
self-delimiting encoding into the deterministic channel traversal, failing
when the message does not fit. -/
def lsbHide (img : Image) (msg : List Nat) : Except String Image :=
  let bits := bytesToBits (lsbMessage msg)
  if bits.length ≤ img.pixels.length then
    .ok { img with pixels := embedBits bits img.pixels }
  else .error "The message you want to hide is too long"

/-- Parse a self-delimited message from the byte stream read back out of
the LSBs: decimal length, `':'`, then that many bytes; anything else is a
malformed embedding. -/
def parseLsbMessage (bytes : List Nat) : Option (List Nat) :=
  let p := takeDigits bytes
  if p.1 = [] then none
  else
    match p.2 with
    | 58 :: tail =>
      if decValue p.1 ≤ tail.length then some (tail.take (decValue p.1)) else none
    | _ => none

/-- Modelled from the spec: `stegano.lsb.reveal` — read the LSB traversal
back and reconstruct the delimited payload. -/
def lsbReveal (img : Image) : Option (List Nat) :=
  parseLsbMessage (bitsToBytes (img.pixels.map getLSB))

/-! ### `StegoEngine` -/

/-- A value stored in the stats dict returned by `validate_image`;
`size_kb`/`capacity_kb` are Python float divisions, carried as exact
ratios since no claim inspects their rounding. -/
inductive StatV where
  | int (n : Int)
  | str (s : String)
  | ratio (num : Int) (den : Nat)
deriving DecidableEq

/-- The stats dict. -/
abbrev Stats : Type := List (String × StatV)

/-- Typed failures of the stego engine (`ValueError`s in the source,
with the data their messages carry). -/
inductive StegoErr where
  | invalidImage (msg : String)
  | payloadTooLarge (dataSize : Nat) (capacity : Int)
  | imageNotFound
  | extractionFailed (msg : String)
  | internalKeyError
deriving DecidableEq

/-- Modelled from the spec: `os.path.getsize`, an abstract byte size of a
file; no claim depends on its value. -/
def fileSize : FileK → Nat
  | .image img => img.pixels.length + img.meta.length
  | .raw bytes => bytes.length

/-- `StegoEngine.calculate_capacity`: open the image, force RGB when the
mode is neither RGB nor RGBA, and return `(width*height*channels) // 8 -
METADATA_OVERHEAD` (Python ints, so the result may be negative). -/
def calculate_capacity (fs : FS) (p : PathK) : Except String Int :=
  match lookupFS fs p with
  | none => .error "No such file or directory"
  | some f => do
    let img ← openFile f
    let m := modeAfterConvert img.mode
    let channels := channelsOf m
    pure ((img.width * img.height * channels / 8 : Nat) - 200)

/-- `StegoEngine.validate_image`: the full validation chain inside the
source's `try`/`except Exception` — every failure is a returned triple,
never an exception.  The valid-image message's `:.1f` float formatting is
abstracted to the plain capacity number. -/
def validate_image (fs : FS) (p : PathK) : Bool × String × Stats :=
  if ¬existsFS fs p then (false, "Image file not found", [])
  else
    match lookupFS fs p with
    | none => (false, "Image file not found", [])
    | some f =>
      match openFile f with
      | .error e => (false, "❌ Invalid image: " ++ e, [])
      | .ok img =>
        let stats0 : Stats :=
          [("width", .int img.width), ("height", .int img.height),
           ("format", .str img.format), ("mode", .str img.mode),
           ("size_kb", .ratio (fileSize f) 1024),
           ("pixels", .int (img.width * img.height))]
        if ¬(img.format = "PNG" ∨ img.format = "BMP" ∨ img.format = "TIFF") then
          (false, "❌ Format " ++ img.format ++ " not supported. Use PNG/BMP/TIFF", stats0)
        else if img.width < 100 ∨ img.height < 100 then
          (false, "❌ Image too small (" ++ toString img.width ++ "x" ++
            toString img.height ++ "). Minimum: 100x100", stats0)
        else
          match calculate_capacity fs p with
          | .error e => (false, "❌ Invalid image: " ++ e, [])
          | .ok capacity =>
            let stats1 : Stats := stats0 ++
              [("capacity_bytes", .int capacity), ("capacity_kb", .ratio capacity 1024)]
            if capacity < 1000 then
              (false, "❌ Insufficient capacity (" ++ toString capacity ++ " bytes)", stats1)
            else
              (true, "✅ Valid image: " ++ toString img.width ++ "x" ++
                toString img.height ++ ", " ++ toString capacity ++ " bytes capacity", stats1)

/-- The prepared image: forced to RGB when needed (`img.convert('RGB')`),
non-pixel metadata stripped (`Image.new` + `putdata`), re-encoded as PNG. -/
def scrubOf (img : Image) : Image :=
  { (if img.mode = "RGB" ∨ img.mode = "RGBA" then img else convertRGB img) with
    meta := [], format := "PNG" }

/-- The stego image `lsb.hide` produces from the prepared cover. -/
def stegoOf (img : Image) (secret : List Nat) : Image :=
  { scrubOf img with
    pixels := embedBits (bytesToBits (lsbMessage secret)) (scrubOf img).pixels }

/-- `StegoEngine.prepare_image`: open, force RGB if needed, strip the
non-pixel metadata (`Image.new` + `putdata`), save as PNG at
`output_path` — which defaults to `Path(image_path).with_suffix('.png')`.
Returns the updated filesystem and the path written. -/
def prepare_image (fs : FS) (p : PathK) (outOpt : Option PathK) :
    Except String (FS × PathK) :=
  match lookupFS fs p with
  | none => .error "No such file or directory"
  | some f => do
    let img ← openFile f
    let out := outOpt.getD (withSuffixPng p)
    pure (writeFS fs out (.image (scrubOf img)), out)

/-- The result-stats dict of a successful `hide`. -/
structure HideStats where
  payloadBytes : Nat
  capacity : Int
  dimensions : String
  fmt : String
deriving DecidableEq

/-- `StegoEngine.hide`: validate the cover, check the payload against the
reported capacity (`PayloadTooLarge` carries both numbers), prepare the
image, embed with `stegano.lsb`, save the stego image as PNG at
`output_path`, then delete the prepared temporary unless it *is* the cover
path.  Returns the updated filesystem and the statistics. -/
def hide (fs : FS) (coverPath : PathK) (secretData : List Nat) (outputPath : PathK) :
    Except StegoErr (FS × HideStats) :=
  let v := validate_image fs coverPath
  if ¬v.1 then .error (.invalidImage v.2.1)
  else
    let dataSize := secretData.length
    match v.2.2.lookup "capacity_bytes" with
    | some (.int capacity) =>
      if (dataSize : Int) > capacity then .error (.payloadTooLarge dataSize capacity)
      else
        match prepare_image fs coverPath none with
        | .error e => .error (.invalidImage e)
        | .ok (fs1, preparedPath) =>
          match lookupFS fs1 preparedPath with
          | none => .error (.invalidImage "No such file or directory")
          | some pf =>
            match openFile pf with
            | .error e => .error (.invalidImage e)
            | .ok pimg =>
              match lsbHide pimg secretData with
              | .error e => .error (.invalidImage e)
              | .ok stego =>
                let fs2 := writeFS fs1 outputPath (.image { stego with format := "PNG", meta := [] })
                let fs3 :=
                  if preparedPath ≠ coverPath ∧ existsFS fs2 preparedPath then
                    removeFS fs2 preparedPath
                  else fs2
                .ok (fs3,
                  { payloadBytes := dataSize, capacity := capacity,
                    dimensions := "", fmt := "" })
    | _ => .error .internalKeyError

/-- `StegoEngine.reveal`: missing path fails with `ImageNotFound`;
everything inside the `try` — a failed decode, a malformed embedding, or
the explicit `raise` on empty extracted data — is re-wrapped by the
`except Exception` clause into `ValueError(f"Extraction failed: ...")`. -/
def reveal (fs : FS) (p : PathK) : Except StegoErr (List Nat) :=
  if ¬existsFS fs p then .error .imageNotFound
  else
    match lookupFS fs p with
    | none => .error .imageNotFound
    | some f =>
      match openFile f with
      | .error e => .error (.extractionFailed e)
      | .ok img =>
        match lsbReveal img with
        | none => .error (.extractionFailed "Impossible to detect message.")
        | some s =>
          if s.length = 0 then
            .error (.extractionFailed "No hidden data detected in image")
          else .ok s

/-! ### Proof-convenience accessors -/

/-- Is an `Except` value a success? -/
def exceptOk {ε α : Type} : Except ε α → Bool
  | .ok _ => true
  | .error _ => false

/-- The filesystem after a (successful) `hide` call. -/
def hideFS (fs : FS) (coverPath : PathK) (secretData : List Nat) (outputPath : PathK) : FS :=
  match hide fs coverPath secretData outputPath with
  | .ok (fs', _) => fs'
  | .error _ => []

/-- Flip bit `i` (bit `i % 8` of byte `i / 8`) of a byte string. -/
def flipBit (i : Nat) (l : List Nat) : List Nat :=
  l.set (i / 8) (l.getD (i / 8) 0 ^^^ 1 <<< (i % 8))

/-- A metadata dict whose keys and values are genuine byte strings. -/
def ValidMeta (m : Meta) : Prop :=
  ∀ kv ∈ m, (∀ c ∈ strBytes kv.1, c < 256) ∧ ∀ b ∈ kv.2, b < 256

/-- A bundle whose five fields are well-formed Unicode strings. -/
def ValidBundle (b : Bundle) : Prop :=
  ValidStr b.version ∧ ValidStr b.metadata ∧ ValidStr b.nonce ∧
    ValidStr b.ciphertext ∧ ValidStr b.tag

instance (s : List Nat) : Decidable (ValidStr s) := by
  unfold ValidStr
  infer_instance

instance (b : Bundle) : Decidable (ValidBundle b) := by
  unfold ValidBundle
  infer_instance

instance (m : Meta) : Decidable (ValidMeta m) := by
  unfold ValidMeta
  infer_instance

/-! ### Concrete fixtures for witnesses and counterexamples -/

/-- A 100x100 RGB PNG cover image with a nonempty metadata chunk. -/
def imgA : Image :=
  { width := 100, height := 100, mode := "RGB", format := "PNG",
    pixels := List.replicate 30000 6, meta := [1, 2] }

/-- A filesystem holding just the cover image. -/
def fsA : FS := [(("cover", "png"), .image imgA)]

def coverA : PathK := ("cover", "png")

def outA : PathK := ("out", "png")

def keyA : List Nat := List.replicate 32 7

def keyB : List Nat := 8 :: List.replicate 31 7

def nonceA : List Nat := List.replicate 12 3

def nowA : List Nat := strBytes "2026-10-12T00:00:00"

def mdA : Meta := [("filename", strBytes "msg.txt")]

/-- Same dimensions and mode as `imgA`, different pixel content. -/
def imgA2 : Image :=
  { width := 100, height := 100, mode := "RGB", format := "PNG",
    pixels := List.replicate 30000 9, meta := [] }

def fsA2 : FS := [(("cover", "png"), .image imgA2)]

def fsRaw : FS := [(("file", "bin"), .raw [1, 2, 3])]

def bundleA : Bundle :=
  { version := strBytes "v2.0", metadata := strBytes "eyJh",
    nonce := strBytes "AAA=", ciphertext := strBytes "xyz",
    tag := strBytes "ttt" }

/-! ## Lemmas: decimal digit strings -/

theorem digitsRevAux_eq {b : Nat} (hb : 1 < b) :
    ∀ (fuel n : Nat), n ≤ fuel → digitsRevAux b fuel n = (Nat.digits b n).reverse := by
  intro fuel
  induction fuel with
  | zero =>
    intro n hn
    have : n = 0 := by omega
    subst this
    simp [digitsRevAux]
  | succ f ih =>
    intro n hn
    cases n with
    | zero => simp [digitsRevAux]
    | succ m =>
      rw [digitsRevAux]
      rw [ih ((m + 1) / b) (by
        have := Nat.div_lt_self (show 0 < m + 1 by omega) hb
        omega)]
      rw [Nat.digits_def' hb (Nat.succ_pos m), List.reverse_cons]

theorem decDigits_eq (n : Nat) :
    decDigits n = if n = 0 then [48] else (Nat.digits 10 n).reverse.map (· + 48) := by
  unfold decDigits
  by_cases h : n = 0
  · rw [if_pos h, if_pos h]
  · rw [if_neg h, if_neg h, digitsRevAux_eq (by norm_num) n n le_rfl]

theorem mem_decDigits_isDigit {n c : Nat} (hc : c ∈ decDigits n) :
    48 ≤ c ∧ c ≤ 57 := by
  rw [decDigits_eq] at hc
  split at hc
  · simp at hc
    omega
  · rcases List.mem_map.mp (List.mem_reverse.mp (by simpa using hc)) with ⟨d, hd, rfl⟩
    have : d < 10 := Nat.digits_lt_base (by norm_num) (List.mem_reverse.mp (by simpa using hd))
    omega

theorem isDigitB_of_mem_decDigits {n c : Nat} (hc : c ∈ decDigits n) :
    isDigitB c = true := by
  have := mem_decDigits_isDigit hc
  simp [isDigitB]
  omega

theorem takeDigits_digits_append {l r : List Nat}
    (hl : ∀ c ∈ l, isDigitB c = true) :
    takeDigits (l ++ 58 :: r) = (l, 58 :: r) := by
  induction l with
  | nil => simp [takeDigits, isDigitB]
  | cons c cs ih =>
    have hc := hl c (List.mem_cons_self c cs)
    have hcs : ∀ x ∈ cs, isDigitB x = true := fun x hx => hl x (List.mem_cons_of_mem c hx)
    simp only [List.cons_append, takeDigits, hc, if_pos, List.append_eq]
    rw [ih hcs]

theorem takeDigits_decDigits_append (n : Nat) (r : List Nat) :
    takeDigits (decDigits n ++ 58 :: r) = (decDigits n, 58 :: r) :=
  takeDigits_digits_append (fun _ hc => isDigitB_of_mem_decDigits hc)

theorem decValue_append_digit (l : List Nat) (d : Nat) :
    decValue (l ++ [d]) = 10 * decValue l + (d - 48) := by
  unfold decValue
  rw [List.foldl_append]
  rfl

theorem decValue_digits_rev (L : List Nat) :
    decValue (L.reverse.map (· + 48)) = Nat.ofDigits 10 L := by
  induction L with
  | nil => simp [decValue, Nat.ofDigits]
  | cons d T ih =>
    rw [List.reverse_cons, List.map_append]
    simp only [List.map_cons, List.map_nil]
    rw [decValue_append_digit, ih, Nat.ofDigits_cons]
    have : d + 48 - 48 = d := by omega
    rw [this]
    ring

theorem decValue_decDigits (n : Nat) : decValue (decDigits n) = n := by
  rw [decDigits_eq]
  split
  · simp [decValue]
    omega
  · rw [decValue_digits_rev, Nat.ofDigits_digits]

theorem decDigits_ne_nil (n : Nat) : decDigits n ≠ [] := by
  rw [decDigits_eq]
  split
  · simp
  · simp only [ne_eq, List.map_eq_nil_iff, List.reverse_eq_nil_iff]
    exact Nat.digits_ne_nil_iff_ne_zero.mpr (by assumption)

theorem decDigits_length_le {n k : Nat} (hk : 1 ≤ k) (hn : n < 10 ^ k) :
    (decDigits n).length ≤ k := by
  rw [decDigits_eq]
  split
  · simpa using hk
  · rw [List.length_map, List.length_reverse]
    rw [Nat.digits_len 10 n (by norm_num) (by assumption)]
    have := Nat.log_lt_of_lt_pow (b := 10) (by assumption) hn
    omega

theorem parseLenField_lenField (x r : List Nat) :
    parseLenField (lenField x ++ r) = some (x, r) := by
  have h : lenField x ++ r = decDigits x.length ++ 58 :: (x ++ r) := by
    simp [lenField]
  rw [parseLenField, h, takeDigits_decDigits_append]
  simp [decDigits_ne_nil, decValue_decDigits, List.length_append,
    List.take_left, List.drop_left]

/-! ## Lemmas: bit streams and LSB embedding -/

theorem byteBits_length (v : Nat) : (byteBits v).length = 8 := by
  simp [byteBits]

theorem bytesToBits_length (l : List Nat) :
    (bytesToBits l).length = 8 * l.length := by
  induction l with
  | nil => simp [bytesToBits]
  | cons b r ih =>
    simp [bytesToBits, byteBits_length, ih]
    omega

theorem byteVal_byteBits {v : Nat} (hv : v < 256) :
    128 * bitVal (v.testBit 7) + 64 * bitVal (v.testBit 6) +
      32 * bitVal (v.testBit 5) + 16 * bitVal (v.testBit 4) +
      8 * bitVal (v.testBit 3) + 4 * bitVal (v.testBit 2) +
      2 * bitVal (v.testBit 1) + bitVal (v.testBit 0) = v := by
  revert hv
  revert v
  set_option maxRecDepth 4000 in decide

theorem bitsToBytes_byteBits {v : Nat} (hv : v < 256) (rest : List Bool) :
    bitsToBytes (byteBits v ++ rest) = v :: bitsToBytes rest := by
  simp only [byteBits, List.cons_append, List.nil_append, bitsToBytes]
  rw [byteVal_byteBits hv]
  rfl

theorem bitsToBytes_bytesToBits {l : List Nat} (hl : ∀ v ∈ l, v < 256)
    (rest : List Bool) :
    bitsToBytes (bytesToBits l ++ rest) = l ++ bitsToBytes rest := by
  induction l with
  | nil => simp [bytesToBits]
  | cons b r ih =>
    have hb : b < 256 := hl b (List.mem_cons_self b r)
    have hr : ∀ v ∈ r, v < 256 := fun v hv => hl v (List.mem_cons_of_mem b hv)
    simp only [bytesToBits, List.append_assoc]
    rw [bitsToBytes_byteBits hb, ih hr]
    rfl

theorem getLSB_setLSB (v : Nat) (b : Bool) : getLSB (setLSB v b) = b := by
  cases b <;> · simp [getLSB, setLSB, bitVal]; try omega

theorem map_getLSB_embedBits {bits : List Bool} {ps : List Nat}
    (h : bits.length ≤ ps.length) :
    (embedBits bits ps).map getLSB = bits ++ (ps.drop bits.length).map getLSB := by
  induction bits generalizing ps with
  | nil => simp [embedBits]
  | cons b bs ih =>
    cases ps with
    | nil => simp at h
    | cons p pr =>
      simp only [embedBits, List.map_cons, getLSB_setLSB, List.length_cons,
        List.drop_succ_cons, List.cons_append]
      rw [ih (by simpa using h)]

theorem embedBits_length {bits : List Bool} {ps : List Nat}
    (h : bits.length ≤ ps.length) :
    (embedBits bits ps).length = ps.length := by
  induction bits generalizing ps with
  | nil => simp [embedBits]
  | cons b bs ih =>
    cases ps with
    | nil => simp at h
    | cons p pr =>
      simp only [embedBits, List.length_cons]
      rw [ih (by simpa using h)]

/-- The LSB round trip at the level of the `stegano` dependency model:
embedding the self-delimited message and reading it back recovers the
message exactly. -/
theorem lsbReveal_embed {img : Image} {msg : List Nat}
    (hmsg : ∀ b ∈ msg, b < 256)
    (hfit : (bytesToBits (lsbMessage msg)).length ≤ img.pixels.length) :
    lsbReveal { img with pixels := embedBits (bytesToBits (lsbMessage msg)) img.pixels } =
      some msg := by
  have hlm : ∀ v ∈ lsbMessage msg, v < 256 := by
    intro v hv
    unfold lsbMessage at hv
    rcases List.mem_append.mp hv with h | h
    · have := mem_decDigits_isDigit h
      omega
    · rcases h with _ | h
      · omega
      · exact hmsg v (by assumption)
  unfold lsbReveal
  simp only
  rw [map_getLSB_embedBits hfit, bitsToBytes_bytesToBits hlm]
  unfold parseLsbMessage lsbMessage
  rw [List.append_assoc, List.cons_append, takeDigits_decDigits_append]
  simp [decDigits_ne_nil, decValue_decDigits, List.length_append,
    List.take_left', List.take_append_of_le_length]

theorem lsbHide_ok {img : Image} {msg : List Nat}
    (hfit : (bytesToBits (lsbMessage msg)).length ≤ img.pixels.length) :
    lsbHide img msg =
      .ok { img with pixels := embedBits (bytesToBits (lsbMessage msg)) img.pixels } := by
  unfold lsbHide
  rw [if_pos hfit]

/-! ## Lemmas: base64 round trip -/

theorem b64val_b64char {k : Nat} (hk : k < 64) : b64val (b64char k) = k := by
  revert hk
  revert k
  decide

theorem b64char_ne_61 {k : Nat} (hk : k < 64) : b64char k ≠ 61 := by
  revert hk
  revert k
  decide

theorem b64_roundtrip : ∀ l : List Nat, (∀ x ∈ l, x < 256) →
    b64decode (b64encode l) = l
  | [], _ => by simp [b64encode, b64decode]
  | [a], h => by
    have ha : a < 256 := h a (by simp)
    rw [b64encode, b64decode]
    rw [if_pos rfl, if_pos rfl]
    rw [b64val_b64char (by omega), b64val_b64char (by omega)]
    have : a / 4 * 4 + a % 4 * 16 / 16 = a := by omega
    rw [this]
  | [a, b], h => by
    have ha : a < 256 := h a (by simp)
    have hb : b < 256 := h b (by simp)
    rw [b64encode, b64decode]
    rw [if_pos rfl, if_neg (b64char_ne_61 (show b % 16 * 4 < 64 by omega))]
    rw [b64val_b64char (by omega), b64val_b64char (by omega), b64val_b64char (by omega)]
    have h1 : a / 4 * 4 + (a % 4 * 16 + b / 16) / 16 = a := by omega
    have h2 : (a % 4 * 16 + b / 16) % 16 * 16 + b % 16 * 4 / 4 = b := by omega
    rw [h1, h2]
  | a :: b :: c :: rest, h => by
    have ha : a < 256 := h a (by simp)
    have hb : b < 256 := h b (by simp)
    have hc : c < 256 := h c (by simp)
    have hrest : ∀ x ∈ rest, x < 256 := fun x hx => h x (by simp [hx])
    rw [b64encode, b64decode]
    rw [if_neg (b64char_ne_61 (show c % 64 < 64 by omega))]
    rw [b64val_b64char (by omega), b64val_b64char (by omega),
      b64val_b64char (by omega), b64val_b64char (by omega)]
    have h1 : a / 4 * 4 + (a % 4 * 16 + b / 16) / 16 = a := by omega
    have h2 : (a % 4 * 16 + b / 16) % 16 * 16 + (b % 16 * 4 + c / 64) / 4 = b := by omega
    have h3 : (b % 16 * 4 + c / 64) % 4 * 64 + c % 64 = c := by omega
    rw [h1, h2, h3, b64_roundtrip rest hrest]

/-! ## Lemmas: JSON string escaping round trip -/

theorem hexVal_hexDigitChar {k : Nat} (hk : k < 16) :
    hexVal (hexDigitChar k) = some k := by
  revert hk
  revert k
  decide

theorem hex4Val_hex4 {n : Nat} (hn : n < 65536) :
    hex4Val (hexDigitChar (n / 4096 % 16)) (hexDigitChar (n / 256 % 16))
      (hexDigitChar (n / 16 % 16)) (hexDigitChar (n % 16)) = some n := by
  unfold hex4Val
  rw [hexVal_hexDigitChar (by omega), hexVal_hexDigitChar (by omega),
    hexVal_hexDigitChar (by omega), hexVal_hexDigitChar (by omega)]
  show some _ = some n
  congr 1
  omega

theorem hexDigitChar_lt256 {k : Nat} (hk : k < 16) : hexDigitChar k < 256 := by
  unfold hexDigitChar
  split <;> omega

theorem mem_hex4_lt {n x : Nat} (hx : x ∈ hex4 n) : x < 256 := by
  simp only [hex4, List.mem_cons, List.not_mem_nil, or_false] at hx
  rcases hx with rfl | rfl | rfl | rfl <;> exact hexDigitChar_lt256 (by omega)

theorem mem_escapeChar_lt {c x : Nat} (hx : x ∈ escapeChar c) : x < 256 := by
  unfold escapeChar at hx
  split_ifs at hx
  · simp at hx; omega
  · simp at hx; omega
  · simp at hx; omega
  · simp at hx; omega
  · simp at hx; omega
  · simp at hx; omega
  · simp at hx; omega
  · simp at hx; omega
  · simp only [List.mem_cons] at hx
    rcases hx with rfl | rfl | hx
    · omega
    · omega
    · exact mem_hex4_lt hx
  · simp only [List.cons_append, List.mem_cons, List.mem_append] at hx
    rcases hx with rfl | rfl | hx | rfl | rfl | hx
    · omega
    · omega
    · exact mem_hex4_lt hx
    · omega
    · omega
    · exact mem_hex4_lt hx

theorem mem_escapeStr_lt {s : List Nat} {x : Nat} (hx : x ∈ escapeStr s) : x < 256 := by
  induction s with
  | nil => simp [escapeStr] at hx
  | cons c cs ih =>
    unfold escapeStr at hx
    simp only [List.foldr_cons] at hx
    rcases List.mem_append.mp hx with h | h
    · exact mem_escapeChar_lt h
    · exact ih h

theorem escapeStr_cons (c : Nat) (cs : List Nat) :
    escapeStr (c :: cs) = escapeChar c ++ escapeStr cs := by
  simp [escapeStr]

theorem escapeChar_ne_nil (c : Nat) : escapeChar c ≠ [] := by
  unfold escapeChar
  split_ifs <;> simp

theorem escapeStr_length_ge (s : List Nat) : s.length ≤ (escapeStr s).length := by
  induction s with
  | nil => simp [escapeStr]
  | cons c cs ih =>
    rw [escapeStr_cons, List.length_append, List.length_cons]
    have : 1 ≤ (escapeChar c).length := by
      rcases h : escapeChar c with _ | ⟨a, t⟩
      · exact absurd h (escapeChar_ne_nil c)
      · simp
    omega

theorem parseJStrAux_quote (fuel : Nat) (rest : List Nat) :
    parseJStrAux (fuel + 1) (34 :: rest) = some ([], rest) := by
  rw [parseJStrAux.eq_def]
  dsimp only
  rw [if_pos rfl]

theorem parseJStrAux_escShort {e v : Nat} (fuel : Nat) (rest : List Nat) (he : e ≠ 117)
    (hv : escVal e = some v) :
    parseJStrAux (fuel + 1) (92 :: e :: rest) =
      match parseJStrAux fuel rest with
      | none => none
      | some p => some (v :: p.1, p.2) := by
  rw [parseJStrAux.eq_def]
  dsimp only
  rw [if_neg (show (92 : Nat) ≠ 34 by omega), if_pos rfl, if_neg he, hv]

theorem parseJStrAux_plain {c : Nat} (fuel : Nat) (rest : List Nat)
    (h34 : c ≠ 34) (h92 : c ≠ 92) :
    parseJStrAux (fuel + 1) (c :: rest) =
      match parseJStrAux fuel rest with
      | none => none
      | some p => some (c :: p.1, p.2) := by
  rw [parseJStrAux.eq_def]
  dsimp only
  rw [if_neg h34, if_neg h92]

theorem parseJStrAux_uEsc (fuel : Nat) (rest1 : List Nat) :
    parseJStrAux (fuel + 1) (92 :: 117 :: rest1) =
      parseUEsc (parseJStrAux fuel) rest1 := by
  rw [parseJStrAux.eq_def]
  dsimp only
  rw [if_neg (show (92 : Nat) ≠ 34 by omega), if_pos rfl, if_pos rfl]

theorem parseUEsc_single {a b c2 d n : Nat} {recur : List Nat → Option (List Nat × List Nat)}
    (rest2 : List Nat) (hv : hex4Val a b c2 d = some n) (hn : ¬(55296 ≤ n ∧ n < 56320)) :
    parseUEsc recur (a :: b :: c2 :: d :: rest2) =
      match recur rest2 with
      | none => none
      | some p => some (n :: p.1, p.2) := by
  rw [parseUEsc, hv]
  dsimp only
  rw [if_neg hn]

theorem parseUEsc_pair {a b c2 d a2 b2 c3 d2 h l : Nat}
    {recur : List Nat → Option (List Nat × List Nat)} (rest3 : List Nat)
    (hv1 : hex4Val a b c2 d = some h) (hh : 55296 ≤ h ∧ h < 56320)
    (hv2 : hex4Val a2 b2 c3 d2 = some l) (hl : 56320 ≤ l ∧ l < 57344) :
    parseUEsc recur (a :: b :: c2 :: d :: (92 :: 117 :: a2 :: b2 :: c3 :: d2 :: rest3)) =
      match recur rest3 with
      | none => none
      | some p => some ((65536 + (h - 55296) * 1024 + (l - 56320)) :: p.1, p.2) := by
  rw [parseUEsc, hv1]
  dsimp only
  rw [if_pos hh, hv2]
  dsimp only
  rw [if_pos hl]

theorem parseJStrAux_escape : ∀ (s : List Nat) (fuel : Nat) (r : List Nat), ValidStr s →
    s.length + 1 ≤ fuel + 1 →
    parseJStrAux (fuel + 1) (escapeStr s ++ 34 :: r) = some (s, r) := by
  intro s
  induction s with
  | nil =>
    intro fuel r _ _
    rw [escapeStr]
    simp only [List.foldr_nil, List.nil_append]
    exact parseJStrAux_quote fuel r
  | cons c cs ih =>
    intro fuel r hs hfuel
    have hc := hs c (List.mem_cons_self c cs)
    have hcs : ValidStr cs := fun x hx => hs x (List.mem_cons_of_mem c hx)
    simp only [List.length_cons] at hfuel
    rcases fuel with _ | g
    · omega
    have ih2 := ih g r hcs (by omega)
    rw [escapeStr_cons, List.append_assoc]
    unfold escapeChar
    by_cases h34 : c = 34
    · subst h34
      rw [if_pos rfl]
      show parseJStrAux (g + 1 + 1) (92 :: 34 :: (escapeStr cs ++ 34 :: r)) = _
      rw [parseJStrAux_escShort (g + 1) _ (by omega) (show escVal 34 = some 34 from rfl)]
      rw [ih2]
    rw [if_neg h34]
    by_cases h92 : c = 92
    · subst h92
      rw [if_pos rfl]
      show parseJStrAux (g + 1 + 1) (92 :: 92 :: (escapeStr cs ++ 34 :: r)) = _
      rw [parseJStrAux_escShort (g + 1) _ (by omega) (show escVal 92 = some 92 from rfl)]
      rw [ih2]
    rw [if_neg h92]
    by_cases h8 : c = 8
    · subst h8
      rw [if_pos rfl]
      show parseJStrAux (g + 1 + 1) (92 :: 98 :: (escapeStr cs ++ 34 :: r)) = _
      rw [parseJStrAux_escShort (g + 1) _ (by omega) (show escVal 98 = some 8 from rfl)]
      rw [ih2]
    rw [if_neg h8]
    by_cases h9 : c = 9
    · subst h9
      rw [if_pos rfl]
      show parseJStrAux (g + 1 + 1) (92 :: 116 :: (escapeStr cs ++ 34 :: r)) = _
      rw [parseJStrAux_escShort (g + 1) _ (by omega) (show escVal 116 = some 9 from rfl)]
      rw [ih2]
    rw [if_neg h9]
    by_cases h10 : c = 10
    · subst h10
      rw [if_pos rfl]
      show parseJStrAux (g + 1 + 1) (92 :: 110 :: (escapeStr cs ++ 34 :: r)) = _
      rw [parseJStrAux_escShort (g + 1) _ (by omega) (show escVal 110 = some 10 from rfl)]
      rw [ih2]
    rw [if_neg h10]
    by_cases h12 : c = 12
    · subst h12
      rw [if_pos rfl]
      show parseJStrAux (g + 1 + 1) (92 :: 102 :: (escapeStr cs ++ 34 :: r)) = _
      rw [parseJStrAux_escShort (g + 1) _ (by omega) (show escVal 102 = some 12 from rfl)]
      rw [ih2]
    rw [if_neg h12]
    by_cases h13 : c = 13
    · subst h13
      rw [if_pos rfl]
      show parseJStrAux (g + 1 + 1) (92 :: 114 :: (escapeStr cs ++ 34 :: r)) = _
      rw [parseJStrAux_escShort (g + 1) _ (by omega) (show escVal 114 = some 13 from rfl)]
      rw [ih2]
    rw [if_neg h13]
    by_cases hprint : 32 ≤ c ∧ c ≤ 126
    · rw [if_pos hprint]
      show parseJStrAux (g + 1 + 1) (c :: (escapeStr cs ++ 34 :: r)) = _
      rw [parseJStrAux_plain (g + 1) _ h34 h92]
      rw [ih2]
    rw [if_neg hprint]
    by_cases hbmp : c < 65536
    · rw [if_pos hbmp]
      have hnosur : ¬(55296 ≤ c ∧ c < 56320) := by
        rcases hc with ⟨_, hc2⟩
        omega
      show parseJStrAux (g + 1 + 1)
        (92 :: 117 :: (hexDigitChar (c / 4096 % 16) :: hexDigitChar (c / 256 % 16) ::
          hexDigitChar (c / 16 % 16) :: hexDigitChar (c % 16) ::
          (escapeStr cs ++ 34 :: r))) = _
      rw [parseJStrAux_uEsc (g + 1)]
      rw [parseUEsc_single _ (hex4Val_hex4 hbmp) hnosur]
      rw [ih2]
    · rw [if_neg hbmp]
      rcases hc with ⟨hlt, _⟩
      have hq : (c - 65536) / 1024 < 1024 := by omega
      have hm : (c - 65536) % 1024 < 1024 := Nat.mod_lt _ (by omega)
      show parseJStrAux (g + 1 + 1)
        (92 :: 117 :: (hexDigitChar ((55296 + (c - 65536) / 1024) / 4096 % 16) ::
          hexDigitChar ((55296 + (c - 65536) / 1024) / 256 % 16) ::
          hexDigitChar ((55296 + (c - 65536) / 1024) / 16 % 16) ::
          hexDigitChar ((55296 + (c - 65536) / 1024) % 16) ::
          (92 :: 117 :: hexDigitChar ((56320 + (c - 65536) % 1024) / 4096 % 16) ::
            hexDigitChar ((56320 + (c - 65536) % 1024) / 256 % 16) ::
            hexDigitChar ((56320 + (c - 65536) % 1024) / 16 % 16) ::
            hexDigitChar ((56320 + (c - 65536) % 1024) % 16) ::
            (escapeStr cs ++ 34 :: r)))) = _
      rw [parseJStrAux_uEsc (g + 1)]
      rw [parseUEsc_pair _ (hex4Val_hex4 (show 55296 + (c - 65536) / 1024 < 65536 by omega))
        ⟨by omega, by omega⟩
        (hex4Val_hex4 (show 56320 + (c - 65536) % 1024 < 65536 by omega))
        ⟨by omega, by omega⟩]
      rw [ih2]
      dsimp only
      rw [show 65536 + (55296 + (c - 65536) / 1024 - 55296) * 1024 +
        (56320 + (c - 65536) % 1024 - 56320) = c from by omega]

theorem parseJStr_escape {s : List Nat} (hs : ValidStr s) (r : List Nat) :
    parseJStr (escapeStr s ++ 34 :: r) = some (s, r) := by
  unfold parseJStr
  have hlen : (escapeStr s ++ 34 :: r).length =
      ((escapeStr s).length + r.length) + 1 := by
    simp [List.length_append]
    omega
  rw [hlen]
  have := escapeStr_length_ge s
  exact parseJStrAux_escape s ((escapeStr s).length + r.length) r hs (by omega)

/-! ## Lemmas: bundle transport round trip -/

theorem stripLit_append (p r : List Nat) : stripLit p (p ++ r) = some r := by
  induction p with
  | nil => simp [stripLit]
  | cons c cs ih => simp [stripLit, ih]

theorem forall_mem_append_lt {l1 l2 : List Nat}
    (h1 : ∀ x ∈ l1, x < 256) (h2 : ∀ x ∈ l2, x < 256) :
    ∀ x ∈ l1 ++ l2, x < 256 := by
  intro x hx
  rcases List.mem_append.mp hx with h | h
  · exact h1 x h
  · exact h2 x h

theorem mem_bundleJson_lt {b : Bundle} {x : Nat} (hx : x ∈ bundleJson b) : x < 256 := by
  revert hx
  unfold bundleJson
  refine fun hx => forall_mem_append_lt (forall_mem_append_lt (forall_mem_append_lt
    (forall_mem_append_lt (forall_mem_append_lt (forall_mem_append_lt
    (forall_mem_append_lt (forall_mem_append_lt (forall_mem_append_lt
    (forall_mem_append_lt ?_ ?_) ?_) ?_) ?_) ?_) ?_) ?_) ?_) ?_) ?_ x hx
  · decide
  · exact fun y hy => mem_escapeStr_lt hy
  · decide
  · exact fun y hy => mem_escapeStr_lt hy
  · decide
  · exact fun y hy => mem_escapeStr_lt hy
  · decide
  · exact fun y hy => mem_escapeStr_lt hy
  · decide
  · exact fun y hy => mem_escapeStr_lt hy
  · decide

/-- The core C3 equality: parsing the transport string recovers the
bundle, provided its five string fields are well-formed Unicode. -/
theorem parse_create_bundle {b : Bundle} (hb : ValidBundle b) :
    parse_bundle_string (create_bundle_string b) = some b := by
  obtain ⟨hv, hm, hn, hc, ht⟩ := hb
  unfold parse_bundle_string create_bundle_string
  rw [b64_roundtrip _ (fun x hx => mem_bundleJson_lt hx)]
  unfold bundleJson
  rw [show (123 : Nat) :: (34 :: strBytes "version" ++ [34, 58, 34]) ++ escapeStr b.version ++
      (34 :: 44 :: 34 :: strBytes "metadata" ++ [34, 58, 34]) ++ escapeStr b.metadata ++
      (34 :: 44 :: 34 :: strBytes "nonce" ++ [34, 58, 34]) ++ escapeStr b.nonce ++
      (34 :: 44 :: 34 :: strBytes "ciphertext" ++ [34, 58, 34]) ++ escapeStr b.ciphertext ++
      (34 :: 44 :: 34 :: strBytes "tag" ++ [34, 58, 34]) ++ escapeStr b.tag ++ [34, 125] =
    (123 :: (34 :: strBytes "version" ++ [34, 58, 34])) ++ (escapeStr b.version ++
      34 :: ((44 :: 34 :: strBytes "metadata" ++ [34, 58, 34]) ++ (escapeStr b.metadata ++
      34 :: ((44 :: 34 :: strBytes "nonce" ++ [34, 58, 34]) ++ (escapeStr b.nonce ++
      34 :: ((44 :: 34 :: strBytes "ciphertext" ++ [34, 58, 34]) ++ (escapeStr b.ciphertext ++
      34 :: ((44 :: 34 :: strBytes "tag" ++ [34, 58, 34]) ++ (escapeStr b.tag ++
      34 :: ([125] ++ ([] : List Nat))))))))))) from by simp]
  dsimp only
  rw [stripLit_append]
  simp only [Option.bind_eq_bind, Option.some_bind]
  rw [parseJStr_escape hv]
  simp only [Option.some_bind]
  rw [stripLit_append]
  simp only [Option.some_bind]
  rw [parseJStr_escape hm]
  simp only [Option.some_bind]
  rw [stripLit_append]
  simp only [Option.some_bind]
  rw [parseJStr_escape hn]
  simp only [Option.some_bind]
  rw [stripLit_append]
  simp only [Option.some_bind]
  rw [parseJStr_escape hc]
  simp only [Option.some_bind]
  rw [stripLit_append]
  simp only [Option.some_bind]
  rw [parseJStr_escape ht]
  simp only [Option.some_bind]
  rw [stripLit_append]
  simp

/-! ## Lemmas: the ideal AEAD (tag injectivity, keystream, bit flips) -/

theorem tagOf_assoc1 (k n a c : List Nat) :
    tagOf k n a c = lenField k ++ (lenField n ++ (lenField a ++ c)) := by
  unfold tagOf
  simp [List.append_assoc]

theorem tagOf_inj {k n a c k' n' a' c' : List Nat}
    (h : tagOf k n a c = tagOf k' n' a' c') :
    k = k' ∧ n = n' ∧ a = a' ∧ c = c' := by
  have e1 := parseLenField_lenField k (lenField n ++ (lenField a ++ c))
  have e1' := parseLenField_lenField k' (lenField n' ++ (lenField a' ++ c'))
  rw [← tagOf_assoc1] at e1 e1'
  rw [h] at e1
  rw [e1'] at e1
  injection e1 with e1
  injection e1 with hk hrest0
  have hrest : lenField n' ++ (lenField a' ++ c') = lenField n ++ (lenField a ++ c) :=
    hrest0
  have e2 := parseLenField_lenField n (lenField a ++ c)
  have e2' := parseLenField_lenField n' (lenField a' ++ c')
  rw [hrest] at e2'
  rw [e2] at e2'
  injection e2' with e2'
  injection e2' with hn hrest2
  have e3 := parseLenField_lenField a c
  have e3' := parseLenField_lenField a' c'
  rw [← hrest2] at e3'
  rw [e3] at e3'
  injection e3' with e3'
  injection e3' with ha hc2
  exact ⟨hk.symm, hn, ha, hc2⟩

theorem ksByte_lt (key nonce : List Nat) (i : Nat) : ksByte key nonce i < 256 :=
  Nat.mod_lt _ (by omega)

theorem xor_lt_256 {x y : Nat} (hx : x < 256) (hy : y < 256) : x ^^^ y < 256 := by
  have := Nat.xor_lt_two_pow (n := 8) (x := x) (y := y) (by omega) (by omega)
  omega

theorem mem_maskFrom_lt {key nonce : List Nat} {l : List Nat}
    (hl : ∀ b ∈ l, b < 256) (i : Nat) :
    ∀ b ∈ maskFrom key nonce i l, b < 256 := by
  induction l generalizing i with
  | nil => simp [maskFrom]
  | cons b r ih =>
    intro v hv
    unfold maskFrom at hv
    rcases List.mem_cons.mp hv with rfl | hv
    · exact xor_lt_256 (hl b (List.mem_cons_self b r)) (ksByte_lt key nonce i)
    · exact ih (fun x hx => hl x (List.mem_cons_of_mem b hx)) (i + 1) v hv

theorem maskFrom_length (key nonce : List Nat) (i : Nat) (l : List Nat) :
    (maskFrom key nonce i l).length = l.length := by
  induction l generalizing i with
  | nil => rfl
  | cons b r ih =>
    unfold maskFrom
    simp [ih]

theorem maskFrom_maskFrom (key nonce : List Nat) (i : Nat) (l : List Nat) :
    maskFrom key nonce i (maskFrom key nonce i l) = l := by
  induction l generalizing i with
  | nil => rfl
  | cons b r ih =>
    rw [show maskFrom key nonce i (b :: r) =
      (b ^^^ ksByte key nonce i) :: maskFrom key nonce (i + 1) r from by rw [maskFrom]]
    rw [maskFrom]
    simp only [List.cons.injEq]
    constructor
    · rw [Nat.xor_assoc, Nat.xor_self, Nat.xor_zero]
    · exact ih (i + 1)

theorem flipBit_length (i : Nat) (l : List Nat) : (flipBit i l).length = l.length := by
  simp [flipBit]

theorem one_shiftLeft_lt_256 {k : Nat} (hk : k < 8) : 1 <<< k < 256 := by
  rw [Nat.shiftLeft_eq, Nat.one_mul]
  calc 2 ^ k ≤ 2 ^ 7 := Nat.pow_le_pow_right (by omega) (by omega)
  _ < 256 := by omega

theorem mem_flipBit_lt {i : Nat} {l : List Nat} (hl : ∀ b ∈ l, b < 256) :
    ∀ b ∈ flipBit i l, b < 256 := by
  intro v hv
  unfold flipBit at hv
  rcases List.mem_or_eq_of_mem_set hv with h | rfl
  · exact hl v h
  · refine xor_lt_256 ?_ (one_shiftLeft_lt_256 (Nat.mod_lt _ (by omega)))
    rcases Nat.lt_or_ge (i / 8) l.length with hlen | hlen
    · have : l.getD (i / 8) 0 = l[i / 8] := by
        simp [List.getD_eq_getElem?_getD, List.getElem?_eq_getElem hlen]
      rw [this]
      exact hl _ (List.getElem_mem hlen)
    · have hnone : l[i / 8]? = none := List.getElem?_eq_none (by omega)
      have : l.getD (i / 8) 0 = 0 := by
        simp [List.getD_eq_getElem?_getD, hnone]
      rw [this]
      omega

theorem xor_shift_ne {v k : Nat} (hk : k < 8) : v ^^^ 1 <<< k ≠ v := by
  intro h
  have := congrArg (fun t => t.testBit k) h
  simp only [Nat.testBit_xor, Nat.shiftLeft_eq, Nat.one_mul] at this
  rw [Nat.testBit_two_pow_self] at this
  cases hvb : (v.testBit k) <;> rw [hvb] at this <;> simp at this

theorem flipBit_ne {i : Nat} {l : List Nat} (hi : i / 8 < l.length) :
    flipBit i l ≠ l := by
  intro h
  unfold flipBit at h
  have hgetD : l.getD (i / 8) 0 = l[i / 8] := by
    simp [List.getD_eq_getElem?_getD, List.getElem?_eq_getElem hi]
  rw [hgetD] at h
  have hlen : i / 8 < (l.set (i / 8) (l[i / 8] ^^^ 1 <<< (i % 8))).length := by
    simpa using hi
  have := List.getElem_of_eq h hlen
  rw [List.getElem_set_self] at this
  exact xor_shift_ne (Nat.mod_lt _ (by omega)) this

/-! ## Lemmas: metadata serialization byte ranges -/

theorem mem_lenField_lt {x : List Nat} (hx : ∀ b ∈ x, b < 256) :
    ∀ b ∈ lenField x, b < 256 := by
  intro b hb
  unfold lenField at hb
  rcases List.mem_append.mp hb with h | h
  · have := mem_decDigits_isDigit h
    omega
  · rcases List.mem_cons.mp h with rfl | h
    · omega
    · exact hx b h

theorem mem_metaUpsert {m : Meta} {k : String} {v : List Nat} {kv : String × List Nat}
    (h : kv ∈ metaUpsert m k v) : kv ∈ m ∨ kv = (k, v) := by
  unfold metaUpsert at h
  split at h
  · rcases List.mem_map.mp h with ⟨kv0, hkv0, heq⟩
    by_cases hk : kv0.1 = k
    · rw [if_pos hk] at heq
      right
      exact heq.symm
    · rw [if_neg hk] at heq
      left
      rw [← heq]
      exact hkv0
  · rcases List.mem_append.mp h with h | h
    · left
      exact h
    · right
      simpa using h

theorem mem_metaUpdate {m new : Meta} {kv : String × List Nat}
    (h : kv ∈ metaUpdate m new) : kv ∈ m ∨ kv ∈ new := by
  unfold metaUpdate at h
  induction new generalizing m with
  | nil => exact Or.inl h
  | cons p ps ih =>
    simp only [List.foldl_cons] at h
    rcases ih h with h2 | h2
    · rcases mem_metaUpsert h2 with h3 | h3
      · exact Or.inl h3
      · right
        rw [h3]
        exact List.mem_cons_self _ _
    · right
      exact List.mem_cons_of_mem p h2

theorem mem_fingerprint_lt {key : List Nat} : ∀ b ∈ fingerprint key, b < 256 := by
  intro b hb
  unfold fingerprint at hb
  have hb2 := List.mem_of_mem_take hb
  rw [digitsRevAux_eq (by norm_num) _ _ le_rfl] at hb2
  rcases List.mem_map.mp hb2 with ⟨d, hd, rfl⟩
  have : d < 16 := Nat.digits_lt_base (by norm_num) (List.mem_reverse.mp hd)
  exact hexDigitChar_lt256 this

theorem mem_decDigits_lt {n : Nat} : ∀ b ∈ decDigits n, b < 256 := by
  intro b hb
  have := mem_decDigits_isDigit hb
  omega

theorem mem_serFold_lt :
    ∀ (l : List (String × List Nat)),
      (∀ kv ∈ l, (∀ c ∈ strBytes kv.1, c < 256) ∧ ∀ b ∈ kv.2, b < 256) →
      ∀ b ∈ l.foldr (fun kv acc => lenField (strBytes kv.1) ++ lenField kv.2 ++ acc) [],
        b < 256 := by
  intro l
  induction l with
  | nil => simp
  | cons p ps ih =>
    intro hl b hb
    simp only [List.foldr_cons] at hb
    rcases List.mem_append.mp hb with h | h
    · rcases List.mem_append.mp h with h2 | h2
      · exact mem_lenField_lt (hl p (List.mem_cons_self p ps)).1 b h2
      · exact mem_lenField_lt (hl p (List.mem_cons_self p ps)).2 b h2
    · exact ih (fun kv hkv => hl kv (List.mem_cons_of_mem p hkv)) b h

theorem mem_insertSorted {p kv : String × List Nat} {l : Meta}
    (h : kv ∈ insertSorted p l) : kv = p ∨ kv ∈ l := by
  induction l with
  | nil =>
    simp [insertSorted] at h
    exact Or.inl h
  | cons q rest ih =>
    unfold insertSorted at h
    split at h
    · rcases List.mem_cons.mp h with rfl | h2
      · exact Or.inl rfl
      · exact Or.inr h2
    · rcases List.mem_cons.mp h with rfl | h2
      · exact Or.inr (List.mem_cons_self _ _)
      · rcases ih h2 with h3 | h3
        · exact Or.inl h3
        · exact Or.inr (List.mem_cons_of_mem q h3)

theorem mem_sortByKey {kv : String × List Nat} {m : Meta}
    (h : kv ∈ sortByKey m) : kv ∈ m := by
  induction m with
  | nil => simpa [sortByKey] using h
  | cons p ps ih =>
    unfold sortByKey at h
    simp only [List.foldr_cons] at h
    rcases mem_insertSorted h with rfl | h2
    · exact List.mem_cons_self _ _
    · exact List.mem_cons_of_mem p (ih h2)

theorem mem_metaSerialize_lt {m : Meta} (hm : ValidMeta m) :
    ∀ b ∈ metaSerialize m, b < 256 := by
  unfold metaSerialize
  exact mem_serFold_lt _ (fun kv hkv => hm kv (mem_sortByKey hkv))

/-! ## Lemmas: filesystem operations -/

theorem lookupFS_write_self (fs : FS) (p : PathK) (f : FileK) :
    lookupFS (writeFS fs p f) p = some f := by
  show (if p = p then some f else lookupFS fs p) = some f
  rw [if_pos rfl]

theorem lookupFS_write_ne {q p : PathK} (fs : FS) (f : FileK) (h : q ≠ p) :
    lookupFS (writeFS fs p f) q = lookupFS fs q := by
  show (if q = p then some f else lookupFS fs q) = lookupFS fs q
  rw [if_neg h]

theorem lookupFS_remove_ne {q p : PathK} (fs : FS) (h : q ≠ p) :
    lookupFS (removeFS fs p) q = lookupFS fs q := by
  induction fs with
  | nil => rfl
  | cons e rest ih =>
    rcases e with ⟨ep, ef⟩
    by_cases he : ep = p
    · have h1 : removeFS ((ep, ef) :: rest) p = removeFS rest p := by
        simp [removeFS, List.filter_cons, he]
      rw [h1, ih]
      show lookupFS rest q = if q = ep then some ef else lookupFS rest q
      rw [if_neg (by rw [he]; exact h)]
    · have h1 : removeFS ((ep, ef) :: rest) p = (ep, ef) :: removeFS rest p := by
        simp [removeFS, List.filter_cons, he]
      rw [h1]
      show (if q = ep then some ef else lookupFS (removeFS rest p) q) =
        (if q = ep then some ef else lookupFS rest q)
      by_cases hq : q = ep
      · rw [if_pos hq, if_pos hq]
      · rw [if_neg hq, if_neg hq, ih]

/-! ## Lemmas: the prepared image and the validation chain -/

theorem channelsOf_RGB : channelsOf "RGB" = 3 := rfl

theorem channelsOf_RGBA : channelsOf "RGBA" = 4 := by
  unfold channelsOf
  rw [if_neg (by decide)]

theorem modeAfterConvert_of_or {m : String} (h : m = "RGB" ∨ m = "RGBA") :
    modeAfterConvert m = m := by
  unfold modeAfterConvert
  rw [if_pos h]

theorem modeAfterConvert_other {m : String} (h : ¬(m = "RGB" ∨ m = "RGBA")) :
    modeAfterConvert m = "RGB" := by
  unfold modeAfterConvert
  rw [if_neg h]

theorem scrubOf_pixels_length {img : Image} (hwf : img.wf) :
    (scrubOf img).pixels.length =
      img.width * img.height * channelsOf (modeAfterConvert img.mode) := by
  obtain ⟨hrgb, hrgba, _⟩ := hwf
  unfold scrubOf
  by_cases hm : img.mode = "RGB" ∨ img.mode = "RGBA"
  · rw [if_pos hm]
    show img.pixels.length = _
    rcases hm with hm | hm
    · rw [modeAfterConvert_of_or (Or.inl hm), hm, channelsOf_RGB]
      exact hrgb hm
    · rw [modeAfterConvert_of_or (Or.inr hm), hm, channelsOf_RGBA]
      exact hrgba hm
  · rw [if_neg hm]
    rw [modeAfterConvert_other hm, channelsOf_RGB]
    show ((img.pixels ++ List.replicate (img.width * img.height * 3) 0).take
      (img.width * img.height * 3)).length = _
    rw [List.length_take, List.length_append, List.length_replicate]
    omega

theorem scrubOf_pixels_lt {img : Image} (hwf : img.wf) :
    ∀ v ∈ (scrubOf img).pixels, v < 256 := by
  obtain ⟨_, _, hlt⟩ := hwf
  intro v hv
  unfold scrubOf at hv
  by_cases hm : img.mode = "RGB" ∨ img.mode = "RGBA"
  · rw [if_pos hm] at hv
    exact hlt v hv
  · rw [if_neg hm] at hv
    unfold convertRGB at hv
    simp only at hv
    have hv2 := List.mem_of_mem_take hv
    rcases List.mem_append.mp hv2 with h | h
    · exact hlt v h
    · have := List.eq_of_mem_replicate h
      omega

theorem channelsOf_ge_3 (m : String) : 3 ≤ channelsOf m := by
  unfold channelsOf
  split <;> omega

theorem capacity_ge {img : Image} (hw : 100 ≤ img.width) (hh : 100 ≤ img.height) :
    3750 ≤ img.width * img.height * channelsOf (modeAfterConvert img.mode) / 8 := by
  have h1 : 10000 ≤ img.width * img.height := by
    calc (10000 : Nat) = 100 * 100 := by norm_num
    _ ≤ img.width * img.height := Nat.mul_le_mul hw hh
  have h2 : 30000 ≤ img.width * img.height * channelsOf (modeAfterConvert img.mode) := by
    calc (30000 : Nat) = 10000 * 3 := by norm_num
    _ ≤ img.width * img.height * channelsOf (modeAfterConvert img.mode) :=
      Nat.mul_le_mul h1 (channelsOf_ge_3 _)
  calc (3750 : Nat) = 30000 / 8 := by norm_num
  _ ≤ _ := Nat.div_le_div_right h2

/-- The full `validate_image` result on a valid, supported, large-enough
cover image. -/
theorem validate_image_valid {fs : FS} {p : PathK} {img : Image}
    (h : lookupFS fs p = some (.image img))
    (hfmt : img.format = "PNG" ∨ img.format = "BMP" ∨ img.format = "TIFF")
    (hw : 100 ≤ img.width) (hh : 100 ≤ img.height) :
    validate_image fs p =
      (true,
       "✅ Valid image: " ++ toString img.width ++ "x" ++ toString img.height ++
         ", " ++ toString (((img.width * img.height *
           channelsOf (modeAfterConvert img.mode) / 8 : Nat) : Int) - 200) ++
         " bytes capacity",
       [("width", .int img.width), ("height", .int img.height),
        ("format", .str img.format), ("mode", .str img.mode),
        ("size_kb", .ratio (fileSize (.image img)) 1024),
        ("pixels", .int (img.width * img.height))] ++
       [("capacity_bytes", .int (((img.width * img.height *
           channelsOf (modeAfterConvert img.mode) / 8 : Nat) : Int) - 200)),
        ("capacity_kb", .ratio (((img.width * img.height *
           channelsOf (modeAfterConvert img.mode) / 8 : Nat) : Int) - 200) 1024)]) := by
  have hcalc : calculate_capacity fs p =
      .ok (((img.width * img.height * channelsOf (modeAfterConvert img.mode) / 8 : Nat) :
        Int) - 200) := by
    unfold calculate_capacity
    rw [h]
    rfl
  have hex : existsFS fs p = true := by
    unfold existsFS
    rw [h]
    rfl
  have hge := capacity_ge hw hh
  unfold validate_image
  rw [hex, h, hcalc]
  simp only [Bool.true_eq_false, not_true_eq_false, if_false, openFile]
  rw [if_neg (not_not_intro hfmt), if_neg (by omega)]
  rw [if_neg (by omega)]

/-- The embedded message fits whenever the payload length is within
capacity and small enough for its decimal length prefix to stay inside
the 200-byte reserve. -/
theorem lsb_message_fits {img : Image} {secret : List Nat} (hwf : img.wf)
    (hlen : ((secret.length : Int) ≤
      ((img.width * img.height * channelsOf (modeAfterConvert img.mode) / 8 : Nat) : Int)
        - 200))
    (hsmall : secret.length < 10 ^ 190) :
    (bytesToBits (lsbMessage secret)).length ≤ (scrubOf img).pixels.length := by
  have hlenN : secret.length + 200 ≤
      img.width * img.height * channelsOf (modeAfterConvert img.mode) / 8 := by
    omega
  have hdig : (decDigits secret.length).length ≤ 190 :=
    decDigits_length_le (by norm_num) hsmall
  have h1 : (bytesToBits (lsbMessage secret)).length =
      8 * ((decDigits secret.length).length + (secret.length + 1)) := by
    rw [bytesToBits_length]
    unfold lsbMessage
    rw [List.length_append, List.length_cons]
  have h2 : 8 * ((decDigits secret.length).length + (secret.length + 1)) ≤
      8 * (secret.length + 200) := by omega
  have h3 : 8 * (secret.length + 200) ≤
      8 * (img.width * img.height * channelsOf (modeAfterConvert img.mode) / 8) :=
    Nat.mul_le_mul_left 8 hlenN
  have h4 : 8 * (img.width * img.height * channelsOf (modeAfterConvert img.mode) / 8) ≤
      img.width * img.height * channelsOf (modeAfterConvert img.mode) := by
    rw [Nat.mul_comm]
    exact Nat.div_mul_le_self _ 8
  rw [scrubOf_pixels_length hwf, h1]
  exact le_trans h2 (le_trans h3 h4)

/-- Full characterization of a successful `hide` call: the prepared image
is written at `Path(cover).with_suffix('.png')`, the stego image at the
output path, and the prepared temporary is deleted only when its path
differs from the cover's. -/
theorem hide_eq_ok {fs : FS} {p out : PathK} {img : Image} {secret : List Nat}
    (h : lookupFS fs p = some (.image img)) (hwf : img.wf)
    (hfmt : img.format = "PNG" ∨ img.format = "BMP" ∨ img.format = "TIFF")
    (hw : 100 ≤ img.width) (hh : 100 ≤ img.height)
    (hlen : (secret.length : Int) ≤
      ((img.width * img.height * channelsOf (modeAfterConvert img.mode) / 8 : Nat) : Int)
        - 200)
    (hsmall : secret.length < 10 ^ 190) :
    hide fs p secret out = .ok
      ((if withSuffixPng p ≠ p ∧
          existsFS (writeFS (writeFS fs (withSuffixPng p) (.image (scrubOf img))) out
            (.image (stegoOf img secret))) (withSuffixPng p) = true then
          removeFS (writeFS (writeFS fs (withSuffixPng p) (.image (scrubOf img))) out
            (.image (stegoOf img secret))) (withSuffixPng p)
        else
          writeFS (writeFS fs (withSuffixPng p) (.image (scrubOf img))) out
            (.image (stegoOf img secret))),
       { payloadBytes := secret.length,
         capacity := ((img.width * img.height *
           channelsOf (modeAfterConvert img.mode) / 8 : Nat) : Int) - 200,
         dimensions := "", fmt := "" }) := by
  have hval := validate_image_valid h hfmt hw hh
  have hprep : prepare_image fs p none =
      .ok (writeFS fs (withSuffixPng p) (.image (scrubOf img)), withSuffixPng p) := by
    unfold prepare_image
    rw [h]
    rfl
  have hlook1 : lookupFS (writeFS fs (withSuffixPng p) (.image (scrubOf img)))
      (withSuffixPng p) = some (.image (scrubOf img)) := lookupFS_write_self _ _ _
  have hlsb := @lsbHide_ok (scrubOf img) secret
    (lsb_message_fits hwf hlen hsmall)
  unfold hide
  rw [hval]
  dsimp only
  rw [if_neg (by simp)]
  rw [show List.lookup "capacity_bytes"
      ([("width", StatV.int img.width), ("height", StatV.int img.height),
        ("format", StatV.str img.format), ("mode", StatV.str img.mode),
        ("size_kb", StatV.ratio (fileSize (.image img)) 1024),
        ("pixels", StatV.int (img.width * img.height))] ++
       [("capacity_bytes", StatV.int (((img.width * img.height *
           channelsOf (modeAfterConvert img.mode) / 8 : Nat) : Int) - 200)),
        ("capacity_kb", StatV.ratio (((img.width * img.height *
           channelsOf (modeAfterConvert img.mode) / 8 : Nat) : Int) - 200) 1024)]) =
      some (StatV.int (((img.width * img.height *
        channelsOf (modeAfterConvert img.mode) / 8 : Nat) : Int) - 200)) from by
    simp [List.lookup]]
  dsimp only
  rw [if_neg (by omega)]
  rw [hprep]
  dsimp only
  rw [hlook1]
  dsimp only [openFile]
  rw [hlsb]
  rfl

/-- `reveal` on a filesystem whose output path holds the stego image
recovers the (nonempty) payload. -/
theorem reveal_of_stego {fs' : FS} {out : PathK} {img : Image} {secret : List Nat}
    (hlook : lookupFS fs' out = some (.image (stegoOf img secret)))
    (hsec : ∀ b ∈ secret, b < 256) (hwf : img.wf)
    (hlen : (secret.length : Int) ≤
      ((img.width * img.height * channelsOf (modeAfterConvert img.mode) / 8 : Nat) : Int)
        - 200)
    (hsmall : secret.length < 10 ^ 190) (hne : secret ≠ []) :
    reveal fs' out = .ok secret := by
  have hex : existsFS fs' out = true := by
    unfold existsFS
    rw [hlook]
    rfl
  have hrev : lsbReveal (stegoOf img secret) = some secret := by
    unfold stegoOf
    exact lsbReveal_embed hsec (lsb_message_fits hwf hlen hsmall)
  unfold reveal
  rw [hex, hlook]
  dsimp only [openFile]
  rw [if_neg (by simp)]
  rw [hrev]
  dsimp only
  rw [if_neg (by simp [hne])]

/-- Unpack a successful `hide` into the filesystem it produces. -/
theorem hideFS_eq {fs : FS} {p out : PathK} {d : List Nat} {W : FS} {s : HideStats}
    (h : hide fs p d out = .ok (W, s)) : hideFS fs p d out = W := by
  unfold hideFS
  rw [h]

/-- `reveal` on a stego image carrying the empty payload raises the
`"No hidden data detected in image"` error. -/
theorem reveal_stego_empty {fs' : FS} {out : PathK} {img : Image}
    (hlook : lookupFS fs' out = some (.image (stegoOf img []))) (hwf : img.wf)
    (hcap : (0 : Int) ≤
      ((img.width * img.height * channelsOf (modeAfterConvert img.mode) / 8 : Nat) : Int)
        - 200) :
    reveal fs' out = .error (.extractionFailed "No hidden data detected in image") := by
  have hex : existsFS fs' out = true := by
    unfold existsFS
    rw [hlook]
    rfl
  have hrev : lsbReveal (stegoOf img []) = some [] := by
    unfold stegoOf
    exact lsbReveal_embed (by simp)
      (lsb_message_fits hwf (by simpa using hcap) (by norm_num))
  unfold reveal
  rw [hex, hlook]
  dsimp only [openFile]
  rw [if_neg (by simp)]
  rw [hrev]
  dsimp only
  rw [if_pos (show ([] : List Nat).length = 0 from rfl)]

/-! ## Claim theorems -/

/-- C5: `encrypt` and `decrypt` under a key whose length is not exactly 32
bytes fail with `InvalidKeySize`; a key of any other length is always
rejected (never truncated or padded) — the `CryptoEngine` constructor
rejects it before any cryptographic work happens. -/
theorem c5_invalid_key_size (key nonce now data bundleStr : List Nat)
    (md : Option Meta) (hlen : key.length ≠ 32) :
    quick_encrypt key nonce now data md = .error .invalidKeySize ∧
    quick_decrypt key bundleStr = .error .invalidKeySize := by
  constructor
  · unfold quick_encrypt CryptoEngine.init
    rw [if_neg hlen]
    rfl
  · unfold quick_decrypt CryptoEngine.init
    rw [if_neg hlen]
    rfl

/-- Witness for C5 at a 31-byte key. -/
theorem c5_invalid_key_size_witness :
    (List.replicate 31 0 : List Nat).length ≠ 32 ∧
      (quick_encrypt (List.replicate 31 0) nonceA nowA [] none = .error .invalidKeySize ∧
       quick_decrypt (List.replicate 31 0) [] = .error .invalidKeySize) :=
  ⟨by decide, c5_invalid_key_size _ nonceA nowA [] [] none (by decide)⟩

/-- C3: for every valid bundle `b` (string fields `version`, `metadata`,
`nonce`, `ciphertext`, `tag`, here: well-formed Unicode strings),
`parse_bundle_string (create_bundle_string b) = b` exactly. -/
theorem c3_bundle_string_roundtrip (b : Bundle) (hb : ValidBundle b) :
    parse_bundle_string (create_bundle_string b) = some b :=
  parse_create_bundle hb

/-- Witness for C3 at a concrete bundle. -/
theorem c3_bundle_string_roundtrip_witness :
    ValidBundle bundleA ∧
      parse_bundle_string (create_bundle_string bundleA) = some bundleA :=
  ⟨by decide, c3_bundle_string_roundtrip bundleA (by decide)⟩

theorem validMeta_encMerged {key now pt : List Nat} {md : Option Meta}
    (hnow : ∀ b ∈ now, b < 256) (hmd : ∀ m, md = some m → ValidMeta m) :
    ValidMeta (encMerged key now pt md) := by
  intro kv hkv
  unfold encMerged at hkv
  rcases mem_metaUpdate hkv with h | h
  · cases md with
    | none => simp [encBase] at h
    | some m =>
      rw [show encBase (some m) = if m = [] then [] else m from rfl] at h
      by_cases hm : m = []
      · rw [if_pos hm] at h
        simp at h
      · rw [if_neg hm] at h
        exact hmd m rfl kv h
  · simp only [List.mem_cons, List.not_mem_nil, or_false] at h
    rcases h with rfl | rfl | rfl | rfl
    · exact ⟨(by decide : ∀ c ∈ strBytes "version", c < 256),
        (by decide : ∀ b ∈ strBytes "v2.0", b < 256)⟩
    · exact ⟨(by decide : ∀ c ∈ strBytes "timestamp", c < 256), hnow⟩
    · exact ⟨(by decide : ∀ c ∈ strBytes "key_hash", c < 256),
        fun b hb => mem_fingerprint_lt b hb⟩
    · exact ⟨(by decide : ∀ c ∈ strBytes "size", c < 256),
        fun b hb => mem_decDigits_lt b hb⟩

theorem mem_tagOf_lt {key nonce aad ct : List Nat}
    (hkey : ∀ b ∈ key, b < 256) (hnonce : ∀ b ∈ nonce, b < 256)
    (haad : ∀ b ∈ aad, b < 256) (hct : ∀ b ∈ ct, b < 256) :
    ∀ b ∈ tagOf key nonce aad ct, b < 256 := by
  intro b hb
  unfold tagOf at hb
  rcases List.mem_append.mp hb with h | h
  · rcases List.mem_append.mp h with h2 | h2
    · rcases List.mem_append.mp h2 with h3 | h3
      · exact mem_lenField_lt hkey b h3
      · exact mem_lenField_lt hnonce b h3
    · exact mem_lenField_lt haad b h2
  · exact hct b h

/-- C2: tamper detection and wrong-key rejection of the AEAD bundler.
For every bundle produced by `encrypt` under a 32-byte key, `decrypt`
fails with `AuthenticationFailed` — never returning altered plaintext —
after flipping any single bit of the (decoded) `ciphertext`, `tag`, or
`metadata` field, and likewise when decrypting the unaltered bundle under
any different 32-byte key.  (The AESGCM primitive is modelled as an ideal
AEAD whose tag binds key, nonce, associated data and ciphertext.) -/
theorem c2_tamper_detection
    (key nonce now pt : List Nat) (md : Option Meta) (i j k : Nat) (key' : List Nat)
    (hkeyLen : key.length = 32) (hkeyB : ∀ b ∈ key, b < 256)
    (hnonceB : ∀ b ∈ nonce, b < 256) (hnowB : ∀ b ∈ now, b < 256)
    (hptB : ∀ b ∈ pt, b < 256) (hmd : ∀ m, md = some m → ValidMeta m)
    (hi : i < 8 * (b64decode (CryptoEngine.encrypt key nonce now pt md).1.ciphertext).length)
    (hj : j < 8 * (b64decode (CryptoEngine.encrypt key nonce now pt md).1.tag).length)
    (hk : k < 8 * (b64decode (CryptoEngine.encrypt key nonce now pt md).1.metadata).length)
    (hk32 : key'.length = 32) (hkne : key' ≠ key) :
    CryptoEngine.decrypt key
      { (CryptoEngine.encrypt key nonce now pt md).1 with
        ciphertext := b64encode (flipBit i
          (b64decode (CryptoEngine.encrypt key nonce now pt md).1.ciphertext)) } =
      .error .authenticationFailed ∧
    CryptoEngine.decrypt key
      { (CryptoEngine.encrypt key nonce now pt md).1 with
        tag := b64encode (flipBit j
          (b64decode (CryptoEngine.encrypt key nonce now pt md).1.tag)) } =
      .error .authenticationFailed ∧
    CryptoEngine.decrypt key
      { (CryptoEngine.encrypt key nonce now pt md).1 with
        metadata := b64encode (flipBit k
          (b64decode (CryptoEngine.encrypt key nonce now pt md).1.metadata)) } =
      .error .authenticationFailed ∧
    CryptoEngine.decrypt key' (CryptoEngine.encrypt key nonce now pt md).1 =
      .error .authenticationFailed := by
  have haadB : ∀ b ∈ encAad key now pt md, b < 256 :=
    mem_metaSerialize_lt (validMeta_encMerged hnowB hmd)
  have hctB : ∀ b ∈ maskFrom key nonce 0 pt, b < 256 := mem_maskFrom_lt hptB 0
  have htgB : ∀ b ∈ tagOf key nonce (encAad key now pt md) (maskFrom key nonce 0 pt),
      b < 256 := mem_tagOf_lt hkeyB hnonceB haadB hctB
  have hB : (CryptoEngine.encrypt key nonce now pt md).1 =
      { version := strBytes "v2.0",
        metadata := b64encode (encAad key now pt md),
        nonce := b64encode nonce,
        ciphertext := b64encode (maskFrom key nonce 0 pt),
        tag := b64encode (tagOf key nonce (encAad key now pt md)
          (maskFrom key nonce 0 pt)) } := rfl
  have hdN : b64decode (b64encode nonce) = nonce := b64_roundtrip _ hnonceB
  have hdC : b64decode (b64encode (maskFrom key nonce 0 pt)) = maskFrom key nonce 0 pt :=
    b64_roundtrip _ hctB
  have hdA : b64decode (b64encode (encAad key now pt md)) = encAad key now pt md :=
    b64_roundtrip _ haadB
  have hdT : b64decode (b64encode (tagOf key nonce (encAad key now pt md)
      (maskFrom key nonce 0 pt))) = tagOf key nonce (encAad key now pt md)
      (maskFrom key nonce 0 pt) := b64_roundtrip _ htgB
  rw [hB] at hi hj hk ⊢
  simp only at hi hj hk
  rw [hdC] at hi
  rw [hdT] at hj
  rw [hdA] at hk
  refine ⟨?_, ?_, ?_, ?_⟩
  · unfold CryptoEngine.decrypt
    dsimp only
    simp only [hdN, hdT, hdA, hdC]
    rw [b64_roundtrip _ (mem_flipBit_lt hctB)]
    rw [if_neg ?_]
    intro heq
    have := (tagOf_inj heq).2.2.2
    exact flipBit_ne (by omega) this.symm
  · unfold CryptoEngine.decrypt
    dsimp only
    simp only [hdN, hdC, hdA, hdT]
    rw [b64_roundtrip _ (mem_flipBit_lt htgB)]
    rw [if_neg ?_]
    intro heq
    have : flipBit j (tagOf key nonce (encAad key now pt md) (maskFrom key nonce 0 pt)) =
        tagOf key nonce (encAad key now pt md) (maskFrom key nonce 0 pt) := heq
    exact flipBit_ne (by omega) this
  · unfold CryptoEngine.decrypt
    dsimp only
    simp only [hdN, hdC, hdT, hdA]
    rw [b64_roundtrip _ (mem_flipBit_lt haadB)]
    rw [if_neg ?_]
    intro heq
    have := (tagOf_inj heq).2.2.1
    exact flipBit_ne (by omega) this.symm
  · unfold CryptoEngine.decrypt
    dsimp only
    simp only [hdN, hdC, hdA, hdT]
    rw [if_neg ?_]
    intro heq
    exact hkne (tagOf_inj heq).1.symm

set_option maxRecDepth 100000 in
/-- Witness for C2 at a concrete key, nonce, plaintext and metadata,
flipping bit 0 of each field and decrypting under a second key. -/
theorem c2_tamper_detection_witness :
    (keyA.length = 32 ∧ (∀ b ∈ keyA, b < 256) ∧ (∀ b ∈ nonceA, b < 256) ∧
      (∀ b ∈ nowA, b < 256) ∧ (∀ b ∈ strBytes "hi", b < 256) ∧
      0 < 8 * (b64decode (CryptoEngine.encrypt keyA nonceA nowA (strBytes "hi")
        (some mdA)).1.ciphertext).length ∧
      0 < 8 * (b64decode (CryptoEngine.encrypt keyA nonceA nowA (strBytes "hi")
        (some mdA)).1.tag).length ∧
      0 < 8 * (b64decode (CryptoEngine.encrypt keyA nonceA nowA (strBytes "hi")
        (some mdA)).1.metadata).length ∧
      keyB.length = 32 ∧ keyB ≠ keyA) ∧
    (CryptoEngine.decrypt keyA
      { (CryptoEngine.encrypt keyA nonceA nowA (strBytes "hi") (some mdA)).1 with
        ciphertext := b64encode (flipBit 0
          (b64decode (CryptoEngine.encrypt keyA nonceA nowA (strBytes "hi")
            (some mdA)).1.ciphertext)) } = .error .authenticationFailed ∧
     CryptoEngine.decrypt keyA
      { (CryptoEngine.encrypt keyA nonceA nowA (strBytes "hi") (some mdA)).1 with
        tag := b64encode (flipBit 0
          (b64decode (CryptoEngine.encrypt keyA nonceA nowA (strBytes "hi")
            (some mdA)).1.tag)) } = .error .authenticationFailed ∧
     CryptoEngine.decrypt keyA
      { (CryptoEngine.encrypt keyA nonceA nowA (strBytes "hi") (some mdA)).1 with
        metadata := b64encode (flipBit 0
          (b64decode (CryptoEngine.encrypt keyA nonceA nowA (strBytes "hi")
            (some mdA)).1.metadata)) } = .error .authenticationFailed ∧
     CryptoEngine.decrypt keyB (CryptoEngine.encrypt keyA nonceA nowA (strBytes "hi")
        (some mdA)).1 = .error .authenticationFailed) :=
  ⟨⟨by decide, by decide, by decide, by decide, by decide, by decide, by decide,
    by decide, by decide, by decide⟩,
   c2_tamper_detection keyA nonceA nowA (strBytes "hi") (some mdA) 0 0 0 keyB
    (by decide) (by decide) (by decide) (by decide) (by decide)
    (fun m hm => by injection hm with hm; rw [← hm]; decide)
    (by decide) (by decide) (by decide) (by decide) (by decide)⟩

/-- C9 (code bug): `encrypt` mutates the caller-supplied metadata mapping.
`meta = metadata or {}` aliases the caller's non-empty dict and
`meta.update({...})` inserts the generated fields into it, so after the
call the caller's mapping has gained `version`, `timestamp`, `key_hash`
and `size` keys — evaluated here at the spec's own example metadata
`{'filename': 'msg.txt'}`. -/
theorem c9_encrypt_mutates_metadata :
    (CryptoEngine.encrypt keyA nonceA nowA (strBytes "hello world") (some mdA)).2 ≠
      some mdA := by
  decide

/-- C4: `calculate_capacity` returns
`floor(width*height*channelsPerPixel/8) - 200` with 3 channels for RGB and
4 for RGBA; the result depends only on the dimensions and channel count
(not on pixel content, metadata, or format), and repeated calls on the
same unmodified file return identical values. -/
theorem c4_calculate_capacity (fs fs2 : FS) (p p2 : PathK) (img img2 : Image)
    (h1 : lookupFS fs p = some (.image img))
    (hmode : img.mode = "RGB" ∨ img.mode = "RGBA")
    (h2 : lookupFS fs2 p2 = some (.image img2))
    (hw : img2.width = img.width) (hh : img2.height = img.height)
    (hch : channelsOf (modeAfterConvert img2.mode) =
      channelsOf (modeAfterConvert img.mode)) :
    calculate_capacity fs p =
      .ok (((img.width * img.height * (if img.mode = "RGBA" then 4 else 3) / 8 : Nat) :
        Int) - 200) ∧
    calculate_capacity fs2 p2 = calculate_capacity fs p ∧
    calculate_capacity fs p = calculate_capacity fs p := by
  have hchannels : channelsOf (modeAfterConvert img.mode) =
      if img.mode = "RGBA" then 4 else 3 := by
    rcases hmode with hm | hm <;> rw [hm] <;> rfl
  have hcalc : calculate_capacity fs p =
      .ok (((img.width * img.height * channelsOf (modeAfterConvert img.mode) / 8 : Nat) :
        Int) - 200) := by
    unfold calculate_capacity
    rw [h1]
    rfl
  have hcalc2 : calculate_capacity fs2 p2 =
      .ok (((img2.width * img2.height * channelsOf (modeAfterConvert img2.mode) / 8 : Nat) :
        Int) - 200) := by
    unfold calculate_capacity
    rw [h2]
    rfl
  refine ⟨?_, ?_, rfl⟩
  · rw [hcalc, hchannels]
  · rw [hcalc, hcalc2, hw, hh, hch]

/-- Witness for C4 at the concrete cover image (and a second filesystem
holding an image of the same dimensions and mode but different pixels). -/
theorem c4_calculate_capacity_witness :
    (lookupFS fsA coverA = some (.image imgA) ∧
      (imgA.mode = "RGB" ∨ imgA.mode = "RGBA")) ∧
    calculate_capacity fsA coverA =
      .ok (((imgA.width * imgA.height * (if imgA.mode = "RGBA" then 4 else 3) / 8 : Nat) :
        Int) - 200) ∧
    calculate_capacity fsA2 coverA = calculate_capacity fsA coverA ∧
    calculate_capacity fsA coverA = calculate_capacity fsA coverA := by
  refine ⟨⟨rfl, Or.inl rfl⟩, ?_⟩
  exact c4_calculate_capacity fsA fsA2 coverA coverA imgA imgA2 rfl (Or.inl rfl)
    rfl rfl rfl rfl

/-- C7 (amended): for every input file that opens as an image,
`validate_image` returns stats containing `width`, `height`, `format` and
`mode`; `capacity_bytes` is additionally present (with the capacity
formula's value) exactly when the format and minimum-dimension checks
pass.  (As stated, the original claim is refuted by
`c7_missing_file_stats_cex`: for a missing file the stats dict is empty.) -/
theorem c7_validate_image_stats (fs : FS) (p : PathK) (img : Image)
    (h : lookupFS fs p = some (.image img)) :
    ((validate_image fs p).2.2.lookup "width" = some (.int img.width) ∧
     (validate_image fs p).2.2.lookup "height" = some (.int img.height) ∧
     (validate_image fs p).2.2.lookup "format" = some (.str img.format) ∧
     (validate_image fs p).2.2.lookup "mode" = some (.str img.mode)) ∧
    (((img.format = "PNG" ∨ img.format = "BMP" ∨ img.format = "TIFF") ∧
        100 ≤ img.width ∧ 100 ≤ img.height) →
      (validate_image fs p).2.2.lookup "capacity_bytes" =
        some (.int (((img.width * img.height *
          channelsOf (modeAfterConvert img.mode) / 8 : Nat) : Int) - 200))) ∧
    (¬((img.format = "PNG" ∨ img.format = "BMP" ∨ img.format = "TIFF") ∧
        100 ≤ img.width ∧ 100 ≤ img.height) →
      (validate_image fs p).2.2.lookup "capacity_bytes" = none) := by
  have hcalc : calculate_capacity fs p =
      .ok (((img.width * img.height * channelsOf (modeAfterConvert img.mode) / 8 : Nat) :
        Int) - 200) := by
    unfold calculate_capacity
    rw [h]
    rfl
  have hex : existsFS fs p = true := by
    unfold existsFS
    rw [h]
    rfl
  unfold validate_image
  rw [hex, h, hcalc]
  simp only [Bool.true_eq_false, not_true_eq_false, if_false, openFile, ite_not]
  by_cases hfmt : img.format = "PNG" ∨ img.format = "BMP" ∨ img.format = "TIFF"
  · rw [if_pos hfmt]
    by_cases hdim : img.width < 100 ∨ img.height < 100
    · rw [if_pos hdim]
      refine ⟨by simp [List.lookup], ?_, ?_⟩
      · intro hok
        omega
      · intro _
        simp [List.lookup]
    · rw [if_neg hdim]
      split_ifs with hcap
      · refine ⟨by simp [List.lookup], ?_, ?_⟩
        · intro _
          simp [List.lookup]
        · intro hnot
          exact absurd ⟨hfmt, by omega, by omega⟩ hnot
      · refine ⟨by simp [List.lookup], ?_, ?_⟩
        · intro _
          simp [List.lookup]
        · intro hnot
          exact absurd ⟨hfmt, by omega, by omega⟩ hnot
  · rw [if_neg hfmt]
    refine ⟨by simp [List.lookup], ?_, ?_⟩
    · intro hok
      exact absurd hok.1 hfmt
    · intro _
      simp [List.lookup]

/-- Counterexample to C7 as stated: for a missing input path the claim
promises stats containing `width`, `height`, `format` and `capacityBytes`,
but `validate_image` returns an empty stats dict (`return False, "Image
file not found", {}`). -/
theorem c7_missing_file_stats_cex :
    (validate_image [] ("missing", "png")).2.2.lookup "width" = none ∧
    (validate_image [] ("missing", "png")).2.2.lookup "height" = none ∧
    (validate_image [] ("missing", "png")).2.2.lookup "format" = none ∧
    (validate_image [] ("missing", "png")).2.2.lookup "capacity_bytes" = none ∧
    validate_image [] ("missing", "png") = (false, "Image file not found", []) := by
  decide

/-- Witness for C7 (amended) at the concrete cover image. -/
theorem c7_validate_image_stats_witness :
    lookupFS fsA coverA = some (.image imgA) ∧
    (((validate_image fsA coverA).2.2.lookup "width" = some (.int imgA.width) ∧
      (validate_image fsA coverA).2.2.lookup "height" = some (.int imgA.height) ∧
      (validate_image fsA coverA).2.2.lookup "format" = some (.str imgA.format) ∧
      (validate_image fsA coverA).2.2.lookup "mode" = some (.str imgA.mode)) ∧
     (((imgA.format = "PNG" ∨ imgA.format = "BMP" ∨ imgA.format = "TIFF") ∧
         100 ≤ imgA.width ∧ 100 ≤ imgA.height) →
       (validate_image fsA coverA).2.2.lookup "capacity_bytes" =
         some (.int (((imgA.width * imgA.height *
           channelsOf (modeAfterConvert imgA.mode) / 8 : Nat) : Int) - 200))) ∧
     (¬((imgA.format = "PNG" ∨ imgA.format = "BMP" ∨ imgA.format = "TIFF") ∧
         100 ≤ imgA.width ∧ 100 ≤ imgA.height) →
       (validate_image fsA coverA).2.2.lookup "capacity_bytes" = none)) :=
  ⟨rfl, c7_validate_image_stats fsA coverA imgA rfl⟩

theorem imgA_wf : imgA.wf := by
  refine ⟨fun _ => ?_, fun hr => absurd hr (by decide), ?_⟩
  · show (List.replicate 30000 6).length = 100 * 100 * 3
    rw [List.length_replicate]
  · intro v hv
    have := List.eq_of_mem_replicate hv
    omega

/-- C1 (amended): `reveal` is the exact left-inverse of `hide` for every
valid cover image and every *nonempty* payload within capacity (and small
enough for the length prefix to fit the 200-byte reserve), provided the
output path does not collide with the temporary prepared path
`Path(cover).with_suffix('.png')` (no constraint when that path is the
cover itself).  The original claim, which also promises the round trip
for the empty payload, is refuted by `c1_empty_payload_cex`: `reveal`
raises `"No hidden data detected in image"` on empty extracted data. -/
theorem c1_hide_reveal_roundtrip (fs : FS) (p out : PathK) (img : Image)
    (secret : List Nat)
    (h : lookupFS fs p = some (.image img)) (hwf : img.wf)
    (hfmt : img.format = "PNG" ∨ img.format = "BMP" ∨ img.format = "TIFF")
    (hw : 100 ≤ img.width) (hh : 100 ≤ img.height)
    (hsec : ∀ b ∈ secret, b < 256) (hne : secret ≠ [])
    (hlen : (secret.length : Int) ≤
      ((img.width * img.height * channelsOf (modeAfterConvert img.mode) / 8 : Nat) : Int)
        - 200)
    (hsmall : secret.length < 10 ^ 190)
    (hout : out ≠ withSuffixPng p ∨ withSuffixPng p = p) :
    exceptOk (hide fs p secret out) = true ∧
    reveal (hideFS fs p secret out) out = .ok secret := by
  have hok := @hide_eq_ok fs p out img secret h hwf hfmt hw hh hlen hsmall
  constructor
  · rw [hok]
    rfl
  · unfold hideFS
    rw [hok]
    dsimp only
    refine reveal_of_stego ?_ hsec hwf hlen hsmall hne
    by_cases hc : withSuffixPng p ≠ p ∧
        existsFS (writeFS (writeFS fs (withSuffixPng p) (.image (scrubOf img))) out
          (.image (stegoOf img secret))) (withSuffixPng p) = true
    · rw [if_pos hc]
      have hne2 : out ≠ withSuffixPng p := by
        rcases hout with h1 | h1
        · exact h1
        · exact absurd h1 hc.1
      rw [lookupFS_remove_ne _ hne2]
      exact lookupFS_write_self _ _ _
    · rw [if_neg hc]
      exact lookupFS_write_self _ _ _

/-- Witness for C1 (amended): the one-byte payload `"h"` round-trips
through the concrete 100x100 PNG cover. -/
theorem c1_hide_reveal_roundtrip_witness :
    (lookupFS fsA coverA = some (.image imgA) ∧ imgA.wf ∧
      ([104] : List Nat) ≠ [] ∧
      ((([104] : List Nat).length : Int) ≤
        ((imgA.width * imgA.height * channelsOf (modeAfterConvert imgA.mode) / 8 : Nat) :
          Int) - 200) ∧
      (outA ≠ withSuffixPng coverA ∨ withSuffixPng coverA = coverA)) ∧
    exceptOk (hide fsA coverA [104] outA) = true ∧
    reveal (hideFS fsA coverA [104] outA) outA = .ok [104] :=
  ⟨⟨rfl, imgA_wf, by decide, by decide, Or.inl (by decide)⟩,
   c1_hide_reveal_roundtrip fsA coverA outA imgA [104] rfl imgA_wf (Or.inl rfl)
    (by decide) (by decide) (by decide) (by decide) (by decide) (by norm_num)
    (Or.inl (by decide))⟩

/-- Counterexample to C1 as stated: for the empty payload (byte length 0,
within capacity) `hide` succeeds, but `reveal` on the produced stego file
raises instead of returning the empty string — the source's
`if secret_data is None or len(secret_data) == 0: raise ValueError(...)`
wrapped by its `except` clause. -/
theorem c1_empty_payload_cex :
    exceptOk (hide fsA coverA [] outA) = true ∧
    reveal (hideFS fsA coverA [] outA) outA ≠ .ok [] := by
  have hok := @hide_eq_ok fsA coverA outA imgA
    [] rfl imgA_wf (Or.inl rfl) (by decide) (by decide) (by decide)
    (by norm_num)
  rw [if_neg (fun hc => hc.1 rfl)] at hok
  constructor
  · rw [hok]
    rfl
  · rw [hideFS_eq hok]
    rw [reveal_stego_empty (lookupFS_write_self _ _ _) imgA_wf (by decide)]
    intro hcontra
    exact Except.noConfusion hcontra

/-- C6: on a valid cover, `hide` succeeds at a payload of length exactly
`capacityBytes` (for any payload small enough that its decimal length
prefix fits the 200-byte embedding reserve) and fails with
`PayloadTooLarge` — reporting both the payload size and the capacity —
for every payload of length `capacityBytes + 1` or more. -/
theorem c6_capacity_boundary (fs : FS) (p out : PathK) (img : Image)
    (pl q : List Nat)
    (h : lookupFS fs p = some (.image img)) (hwf : img.wf)
    (hfmt : img.format = "PNG" ∨ img.format = "BMP" ∨ img.format = "TIFF")
    (hw : 100 ≤ img.width) (hh : 100 ≤ img.height)
    (hplen : (pl.length : Int) =
      ((img.width * img.height * channelsOf (modeAfterConvert img.mode) / 8 : Nat) : Int)
        - 200)
    (hsmall : pl.length < 10 ^ 190)
    (hq : ((img.width * img.height * channelsOf (modeAfterConvert img.mode) / 8 : Nat) :
        Int) - 200 + 1 ≤ (q.length : Int)) :
    exceptOk (hide fs p pl out) = true ∧
    hide fs p q out = .error (.payloadTooLarge q.length
      (((img.width * img.height * channelsOf (modeAfterConvert img.mode) / 8 : Nat) :
        Int) - 200)) := by
  constructor
  · rw [hide_eq_ok h hwf hfmt hw hh (le_of_eq hplen) hsmall]
    rfl
  · have hval := validate_image_valid h hfmt hw hh
    unfold hide
    rw [hval]
    dsimp only
    rw [if_neg (by simp)]
    rw [show List.lookup "capacity_bytes"
        ([("width", StatV.int img.width), ("height", StatV.int img.height),
          ("format", StatV.str img.format), ("mode", StatV.str img.mode),
          ("size_kb", StatV.ratio (fileSize (.image img)) 1024),
          ("pixels", StatV.int (img.width * img.height))] ++
         [("capacity_bytes", StatV.int (((img.width * img.height *
             channelsOf (modeAfterConvert img.mode) / 8 : Nat) : Int) - 200)),
          ("capacity_kb", StatV.ratio (((img.width * img.height *
             channelsOf (modeAfterConvert img.mode) / 8 : Nat) : Int) - 200) 1024)]) =
        some (StatV.int (((img.width * img.height *
          channelsOf (modeAfterConvert img.mode) / 8 : Nat) : Int) - 200)) from by
      simp [List.lookup]]
    dsimp only
    rw [if_pos (by omega)]

/-- Witness for C6 at the concrete cover: capacity is 3550 bytes; a
3550-byte payload embeds, a 3551-byte payload is rejected with both
numbers reported. -/
theorem c6_capacity_boundary_witness :
    (lookupFS fsA coverA = some (.image imgA) ∧ imgA.wf ∧
      ((List.replicate 3550 65).length : Int) =
        ((imgA.width * imgA.height * channelsOf (modeAfterConvert imgA.mode) / 8 : Nat) :
          Int) - 200 ∧
      ((imgA.width * imgA.height * channelsOf (modeAfterConvert imgA.mode) / 8 : Nat) :
          Int) - 200 + 1 ≤ ((List.replicate 3551 65).length : Int)) ∧
    exceptOk (hide fsA coverA (List.replicate 3550 65) outA) = true ∧
    hide fsA coverA (List.replicate 3551 65) outA =
      .error (.payloadTooLarge (List.replicate 3551 65).length
        (((imgA.width * imgA.height * channelsOf (modeAfterConvert imgA.mode) / 8 : Nat) :
          Int) - 200)) :=
  ⟨⟨rfl, imgA_wf, by rw [List.length_replicate]; decide,
    by rw [List.length_replicate]; decide⟩,
   c6_capacity_boundary fsA coverA outA imgA (List.replicate 3550 65)
    (List.replicate 3551 65) rfl imgA_wf (Or.inl rfl) (by decide) (by decide)
    (by rw [List.length_replicate]; decide)
    (by rw [List.length_replicate]; norm_num)
    (by rw [List.length_replicate]; decide)⟩

/-- C8 (code bug): `hide` mutates the cover file when the cover is a PNG.
`prepare_image` defaults its output to `Path(cover).with_suffix('.png')`,
which *is* the cover path for a `.png` cover, so the stripped re-encoded
image is saved over the cover in place; after a successful `hide` the file
at the cover path is no longer the original (its metadata chunk is gone),
contradicting "never mutates the cover file". -/
theorem c8_hide_overwrites_png_cover :
    exceptOk (hide fsA coverA [104] outA) = true ∧
    lookupFS (hideFS fsA coverA [104] outA) coverA ≠ lookupFS fsA coverA := by
  have hok := @hide_eq_ok fsA coverA outA imgA
    [104] rfl imgA_wf (Or.inl rfl) (by decide) (by decide) (by decide)
    (by norm_num)
  rw [if_neg (fun hc => hc.1 rfl)] at hok
  constructor
  · rw [hok]
    rfl
  · rw [hideFS_eq hok]
    rw [lookupFS_write_ne _ _ (by decide : coverA ≠ outA)]
    rw [show withSuffixPng coverA = coverA from rfl]
    rw [lookupFS_write_self]
    rw [show lookupFS fsA coverA = some (.image imgA) from rfl]
    intro hcontra
    injection hcontra with h1
    injection h1 with h2
    exact absurd (congrArg Image.meta h2) (by decide)

/-- C10: `validate_image` is total at its public interface: a nonexistent
file and a file that fails to decode as an image both produce a
`(False, message, stats)` triple — the body runs inside
`try ... except Exception`, so no exception escapes. -/
theorem c10_validate_image_total (fs : FS) (p : PathK) (bytes : List Nat) :
    (lookupFS fs p = none →
      validate_image fs p = (false, "Image file not found", [])) ∧
    (lookupFS fs p = some (.raw bytes) →
      validate_image fs p = (false, "❌ Invalid image: cannot identify image file", [])) := by
  constructor
  · intro h
    unfold validate_image
    rw [show existsFS fs p = false from by
      unfold existsFS
      rw [h]
      rfl]
    rfl
  · intro h
    unfold validate_image
    rw [show existsFS fs p = true from by
      unfold existsFS
      rw [h]
      rfl]
    rw [h]
    rfl

/-- Witness for C10 at a missing path and at a raw non-image file. -/
theorem c10_validate_image_total_witness :
    (lookupFS ([] : FS) ("missing", "png") = none ∧
      validate_image [] ("missing", "png") = (false, "Image file not found", [])) ∧
    (lookupFS fsRaw ("file", "bin") = some (.raw [1, 2, 3]) ∧
      validate_image fsRaw ("file", "bin") =
        (false, "❌ Invalid image: cannot identify image file", [])) :=
  ⟨⟨rfl, (c10_validate_image_total [] ("missing", "png") []).1 rfl⟩,
   ⟨rfl, (c10_validate_image_total fsRaw ("file", "bin") [1, 2, 3]).2 rfl⟩⟩

end ImageStegano
